import Mathlib

/-!
Verification of the Battleship game-rules engine (Ship / Gameboard / Player /
gameSetup) against its design specification.

The JavaScript source is embedded shallowly:

* `Ship` objects become a structure with `length` and `timesHit`; the mutating
  `hit()` method becomes a function returning the updated ship.
* `Gameboard` cells (`null` / `Ship` reference / `"miss"` / `"hit"`) become the
  inductive `Cell`; the back reference from a cell to its ship is an index into
  the board's ship list (the arena pattern), so that "hitting the ship an
  attacked cell points to" is an update of `ships[idx]`.
* Methods that throw become `Except`-valued functions; methods that return a
  structured failure result keep that result as data.
* `Math.random()`-driven loops are parametrised by an explicit stream of draws
  (`Nat → ...`); `Math.floor(Math.random() * size)` is modelled by `r % size`,
  which like the source produces exactly the values `0 .. size-1`.  The
  unbounded rejection loop of the random attack strategy takes a fuel
  parameter; running out of fuel is a modelling artifact (`none`), never
  identified with any behaviour of the source.
* JavaScript coordinates reaching the board are arbitrary integers (`Int`);
  the `Number.isInteger` checks of the source are absorbed by the type.
  Player-generated coordinates are naturals, as in the source they are
  produced by `Math.floor(Math.random() * size)` and grid scans.
-/

namespace Battleship

/-- Cell states of the board: `null` (empty water), a ship reference,
`"miss"`, `"hit"` (Gameboard.js / Constants.js `CELL_STATES`). -/
inductive Cell where
  | empty
  | shipRef (idx : Nat)
  | miss
  | hit
deriving DecidableEq, Repr

/-- A ship: fixed `length`, accumulated `timesHit` (Ship.js private fields). -/
structure Ship where
  length : Nat
  timesHit : Nat
deriving DecidableEq, Repr

-- Constants.js
def MIN_BOARD_SIZE : Nat := 5
def MAX_BOARD_SIZE : Nat := 10
def MIN_SHIP_LENGTH : Nat := 2
def MAX_SHIP_LENGTH : Nat := 5
def MAX_PLACEMENT_ATTEMPTS : Nat := 1000
def VALID_DIRECTIONS : List String := ["N", "E", "S", "W"]
def DEFAULT_AI_STRATEGY : String := "random"

/-- Ship.js `isSunk()`: `timesHit >= length`. -/
def Ship.isSunk (s : Ship) : Bool := decide (s.length ≤ s.timesHit)

/-- Ship.js `hit()`: `if (!this.isSunk()) this.#timesHit++` — saturating
increment, modelled as returning the updated ship. -/
def Ship.hit (s : Ship) : Ship :=
  if s.isSunk then s else { s with timesHit := s.timesHit + 1 }

/-- k successive calls to `hit()` on a ship. -/
def Ship.hitIter (s : Ship) : Nat → Ship
  | 0 => s
  | k + 1 => (s.hitIter k).hit

/-- A Battleship board: size, the `board[y][x]` grid, and the owned ships.
The ship a `Cell.shipRef idx` cell points to is `ships[idx]`. -/
structure Gameboard where
  size : Nat
  board : List (List Cell)
  ships : List Ship
deriving DecidableEq, Repr

/-- Gameboard.js constructor: validates `MIN_BOARD_SIZE <= size <= MAX_BOARD_SIZE`
(the integer check is absorbed by the `Nat` type), then builds an all-empty
`size × size` grid with no ships. -/
def Gameboard.make (size : Nat) : Except String Gameboard :=
  if size < MIN_BOARD_SIZE ∨ MAX_BOARD_SIZE < size then
    .error "Gameboard must have grid size between 5 and 10 inclusive"
  else
    .ok { size := size
          board := List.replicate size (List.replicate size Cell.empty)
          ships := [] }

/-- Gameboard.js `#withinBoard(x, y)`:
`x >= 0 && x <= size - 1 && y >= 0 && y <= size - 1`. -/
def Gameboard.withinBoard (b : Gameboard) (x y : Int) : Bool :=
  decide (0 ≤ x ∧ x ≤ (b.size : Int) - 1 ∧ 0 ≤ y ∧ y ≤ (b.size : Int) - 1)

/-- Reading `board[y][x]` (out-of-range reads never happen in the source, as
every access is guarded by `#withinBoard`; `getD` defaults keep the model
total). -/
def Gameboard.cellAt (b : Gameboard) (x y : Int) : Cell :=
  (b.board.getD y.toNat []).getD x.toNat Cell.empty

/-- Writing `board[y][x] = c`. -/
def Gameboard.setCell (b : Gameboard) (x y : Int) (c : Cell) : Gameboard :=
  { b with board := b.board.set y.toNat ((b.board.getD y.toNat []).set x.toNat c) }

/-- Position payload of a failed placement: the offending coordinate and its
segment index. -/
structure FailPos where
  x : Int
  y : Int
  segment : Nat
deriving DecidableEq, Repr

/-- Result of Gameboard.js `#canPlaceShip`. -/
inductive CanPlace where
  | valid
  | invalid (reason : String) (position : FailPos)
deriving DecidableEq, Repr

/-- The loop body of Gameboard.js `#canPlaceShip`: segments `i, i+1, ...`
(`rem` of them) are checked in order, each first for in-bounds and then for
emptiness, stopping at the first failure. -/
def Gameboard.canPlaceFrom (b : Gameboard) (x y dx dy : Int) (i : Nat) : Nat → CanPlace
  | 0 => .valid
  | rem + 1 =>
    if b.withinBoard (x + (i : Int) * dx) (y + (i : Int) * dy) = false then
      .invalid "out-of-bounds" ⟨x + (i : Int) * dx, y + (i : Int) * dy, i⟩
    else if b.cellAt (x + (i : Int) * dx) (y + (i : Int) * dy) ≠ Cell.empty then
      .invalid "cell-occupied" ⟨x + (i : Int) * dx, y + (i : Int) * dy, i⟩
    else
      b.canPlaceFrom x y dx dy (i + 1) rem

/-- Gameboard.js `#canPlaceShip(x, y, length, delta)`. -/
def Gameboard.canPlaceShip (b : Gameboard) (x y : Int) (length : Nat)
    (delta : Int × Int) : CanPlace :=
  b.canPlaceFrom x y delta.1 delta.2 0 length

/-- The `deltas` table of Gameboard.js `placeShip` (only consulted for valid
direction tokens). -/
def deltaFor (direction : String) : Int × Int :=
  if direction = "N" then (0, -1)
  else if direction = "E" then (1, 0)
  else if direction = "S" then (0, 1)
  else (-1, 0)

/-- Result object of `placeShip`: `{success: true, ship}` or
`{success: false, reason, position}`.  Both carry the board after the call —
on failure the source mutates nothing, so the carried board is the input
board itself. -/
inductive PlaceShipResult where
  | placed (board : Gameboard) (shipIdx : Nat)
  | failed (board : Gameboard) (reason : String) (position : FailPos)
deriving DecidableEq, Repr

/-- The placement loop of `placeShip`: mark segments `i, i+1, ...` (`rem` of
them) with cell value `c`. -/
def Gameboard.markCells (b : Gameboard) (x y dx dy : Int) (c : Cell) (i : Nat) :
    Nat → Gameboard
  | 0 => b
  | rem + 1 =>
    (b.setCell (x + (i : Int) * dx) (y + (i : Int) * dy) c).markCells x y dx dy c (i + 1) rem

/-- The `this.#ships.push(ship)` step of `placeShip`. -/
def Gameboard.pushShip (b : Gameboard) (s : Ship) : Gameboard :=
  { b with ships := b.ships ++ [s] }

/-- Gameboard.js `placeShip(x, y, length, direction)`: throws (`Except.error`)
on an invalid direction token; otherwise validates via `#canPlaceShip` and on
failure returns the structured result with the board untouched; on success
constructs the `Ship` (whose constructor throws for a length outside 2..5),
marks the cells with a reference to it, and appends it to the ship list. -/
def Gameboard.placeShip (b : Gameboard) (x y : Int) (length : Nat)
    (direction : String) : Except String PlaceShipResult :=
  if (VALID_DIRECTIONS.contains direction) = false then
    .error "Direction must be one of: N, E, S, W"
  else
    match b.canPlaceShip x y length (deltaFor direction) with
    | .invalid reason position => .ok (.failed b reason position)
    | .valid =>
      if length < MIN_SHIP_LENGTH ∨ MAX_SHIP_LENGTH < length then
        .error "Ship must have length between 2 and 5 inclusive"
      else
        .ok (.placed
          ((b.markCells x y (deltaFor direction).1 (deltaFor direction).2
              (Cell.shipRef b.ships.length) 0 length).pushShip ⟨length, 0⟩)
          b.ships.length)

/-- Gameboard.js `#allSunk()`. -/
def Gameboard.allSunk (b : Gameboard) : Bool := b.ships.all Ship.isSunk

/-- Hard failures of `receiveAttack`: RangeError for out-of-bounds
coordinates, Error for re-attacking a cell. -/
inductive AttackError where
  | outOfRange
  | alreadyAttacked
deriving DecidableEq, Repr

/-- Gameboard.js `receiveAttack(x, y)`: validates coordinates, rejects
already-attacked cells, then either hits the referenced ship, marks the cell
`hit` and reports (in priority order) `"sunk-all"` / `"sunk"` / `"hit"`, or
marks empty water `miss` and reports `"miss"`. -/
def Gameboard.receiveAttack (b : Gameboard) (x y : Int) :
    Except AttackError (String × Gameboard) :=
  if b.withinBoard x y = false then .error .outOfRange
  else
    match b.cellAt x y with
    | .hit => .error .alreadyAttacked
    | .miss => .error .alreadyAttacked
    | .shipRef idx =>
      let ship2 := (b.ships.getD idx ⟨0, 0⟩).hit
      let b2 : Gameboard :=
        { (b.setCell x y Cell.hit) with ships := b.ships.set idx ship2 }
      if b2.allSunk then .ok ("sunk-all", b2)
      else if ship2.isSunk then .ok ("sunk", b2)
      else .ok ("hit", b2)
    | .empty => .ok ("miss", b.setCell x y Cell.miss)

/-- Well-formed grid: `size` rows, each of length `size` (true of every board
the constructor builds, and preserved by all operations). -/
def GridWF (b : Gameboard) : Prop :=
  b.board.length = b.size ∧ ∀ i, i < b.size → (b.board.getD i []).length = b.size

instance (b : Gameboard) : Decidable (GridWF b) := by
  unfold GridWF; infer_instance

/-- Nat-indexed cell read, the form used by all grid reasoning. -/
def Gameboard.cellAtN (b : Gameboard) (x y : Nat) : Cell :=
  (b.board.getD y []).getD x Cell.empty

/-- The board produced by the ship branch of `receiveAttack`. -/
def Gameboard.shipHitBoard (b : Gameboard) (x y : Int) (idx : Nat) : Gameboard :=
  { b.setCell x y Cell.hit with
    ships := b.ships.set idx ((b.ships.getD idx ⟨0, 0⟩).hit) }

/-- The result string produced by the ship branch of `receiveAttack`. -/
def Gameboard.shipHitResult (b : Gameboard) (x y : Int) (idx : Nat) : String :=
  if (b.shipHitBoard x y idx).allSunk then "sunk-all"
  else if ((b.ships.getD idx ⟨0, 0⟩).hit).isSunk then "sunk"
  else "hit"

/-! ## Player.js: the automated contestant -/

/-- The JS attack memory is a `Set` of strings `"x,y"`; for integer
coordinates the key is in bijection with the pair, so it is modelled as a
list of pairs kept duplicate-free by `setAdd`.  `setHas` is `Set.has`. -/
def setHas (h : List (Nat × Nat)) (c : Nat × Nat) : Bool := decide (c ∈ h)

/-- JS `Set.add`: appends the key unless it is already present. -/
def setAdd (h : List (Nat × Nat)) (c : Nat × Nat) : List (Nat × Nat) :=
  if setHas h c then h else h ++ [c]

/-- Player.js `#randomAttack`: rejection-sample `(floor(rand*size),
floor(rand*size))` until the pair is not in the attack memory.  `stream k`
supplies the k-th pair of draws; `fuel` bounds the unbounded source loop
(running out is a modelling artifact). -/
def randomAttack (size : Nat) (history : List (Nat × Nat)) (stream : Nat → Nat × Nat) :
    Nat → Nat → Option (Nat × Nat)
  | _, 0 => none
  | k, fuel + 1 =>
    if setHas history ((stream k).1 % size, (stream k).2 % size) then
      randomAttack size history stream (k + 1) fuel
    else
      some ((stream k).1 % size, (stream k).2 % size)

/-- Player.js `isHit`: `String(val).toLowerCase().includes("hit") || s === "x"
|| s === "h"`.  On the four cell values of the board model this holds exactly
for the `"hit"` marker: `null` is rejected up front, `"miss"` contains no
"hit", and a `Ship` object stringifies to `"[object Object]"`. -/
def isHit (c : Cell) : Bool := decide (c = Cell.hit)

/-- The four orthogonal neighbours of `(col, row)` in the source's order:
`[col+1,row], [col-1,row], [col,row+1], [col,row-1]` — that is
(+x, -x, +y, -y). -/
def neighboursOf (col row : Nat) : List (Int × Int) :=
  [((col : Int) + 1, (row : Int)), ((col : Int) - 1, (row : Int)),
   ((col : Int), (row : Int) + 1), ((col : Int), (row : Int) - 1)]

/-- The inner neighbour loop of the target phase: skip out-of-bounds
(`nx < 0 || ny < 0 || nx >= size || ny >= size`) and already-attempted
neighbours, return the first remaining one. -/
def firstFreeNeighbour (size : Nat) (history : List (Nat × Nat)) :
    List (Int × Int) → Option (Nat × Nat)
  | [] => none
  | (nx, ny) :: rest =>
    if nx < 0 ∨ ny < 0 ∨ (size : Int) ≤ nx ∨ (size : Int) ≤ ny then
      firstFreeNeighbour size history rest
    else if setHas history (nx.toNat, ny.toNat) then
      firstFreeNeighbour size history rest
    else
      some (nx.toNat, ny.toNat)

/-- The column loop of the target phase at row `row`, starting at column
`col`: for each hit cell try its neighbours, else continue. -/
def targetScanRow (size : Nat) (history : List (Nat × Nat)) (row : Nat) :
    Nat → List Cell → Option (Nat × Nat)
  | _, [] => none
  | col, c :: rest =>
    if isHit c then
      match firstFreeNeighbour size history (neighboursOf col row) with
      | some r => some r
      | none => targetScanRow size history row (col + 1) rest
    else
      targetScanRow size history row (col + 1) rest

/-- The row loop of the target phase, starting at row `row`. -/
def targetScan (size : Nat) (history : List (Nat × Nat)) :
    Nat → List (List Cell) → Option (Nat × Nat)
  | _, [] => none
  | row, r :: rest =>
    match targetScanRow size history row 0 r with
    | some c => some c
    | none => targetScan size history (row + 1) rest

/-- Phase 1 of Player.js `#huntAndTargetAttack`: row-major scan of the board,
neighbours of each `Hit` cell in (+x, -x, +y, -y) order, first in-bounds
not-yet-attempted neighbour wins. -/
def targetPhase (size : Nat) (board : List (List Cell)) (history : List (Nat × Nat)) :
    Option (Nat × Nat) :=
  targetScan size history 0 board

/-- Phase 2 candidate set: all not-yet-attempted cells of even checkerboard
parity, collected with `x` in the outer and `y` in the inner loop. -/
def huntCandidates (size : Nat) (history : List (Nat × Nat)) : List (Nat × Nat) :=
  (List.range size).bind fun x =>
    (List.range size).filterMap fun y =>
      if setHas history (x, y) then none
      else if (x + y) % 2 = 0 then some (x, y) else none

/-- The inner `y` loop of the fallback phase at column `x`, starting at `y`
with `rem` values left: first not-yet-attempted cell, `y` ascending. -/
def fallbackFromY (history : List (Nat × Nat)) (x : Nat) : Nat → Nat → Option (Nat × Nat)
  | _, 0 => none
  | y, rem + 1 =>
    if setHas history (x, y) then fallbackFromY history x (y + 1) rem
    else some (x, y)

/-- The outer `x` loop of the fallback phase, starting at `x` with `rem`
columns left. -/
def fallbackFromX (history : List (Nat × Nat)) (size : Nat) : Nat → Nat → Option (Nat × Nat)
  | _, 0 => none
  | x, rem + 1 =>
    match fallbackFromY history x 0 size with
    | some c => some c
    | none => fallbackFromX history size (x + 1) rem

/-- Phase 3 of Player.js `#huntAndTargetAttack`: scan `x` in the outer loop
and `y` in the inner loop, return the first not-yet-attempted cell. -/
def fallbackPhase (size : Nat) (history : List (Nat × Nat)) : Option (Nat × Nat) :=
  fallbackFromX history size 0 size

/-- Player.js `#huntAndTargetAttack(opponentBoard)`: target phase, then a
uniformly random even-parity candidate (`r` models the random index draw),
then the fallback scan, then the safety return `[0, 0]`. -/
def huntAndTargetAttack (size : Nat) (board : List (List Cell))
    (history : List (Nat × Nat)) (r : Nat) : Nat × Nat :=
  match targetPhase size board history with
  | some c => c
  | none =>
    if (huntCandidates size history).length ≠ 0 then
      (huntCandidates size history).getD (r % (huntCandidates size history).length) (0, 0)
    else
      match fallbackPhase size history with
      | some c => c
      | none => (0, 0)

/-- Player.js `#generateAttackCoordinates`: `"random"` and the default branch
use `#randomAttack`; only the exact token `"hunt"` selects
`#huntAndTargetAttack`. -/
def generateAttackCoordinates (strategy : String) (size : Nat)
    (board : List (List Cell)) (history : List (Nat × Nat))
    (stream : Nat → Nat × Nat) (r fuel : Nat) : Option (Nat × Nat) :=
  if strategy = "random" then randomAttack size history stream 0 fuel
  else if strategy = "hunt" then some (huntAndTargetAttack size board history r)
  else randomAttack size history stream 0 fuel

/-- The automated contestant: attack memory plus strategy selector (name and
own board omitted — no claim concerns them). -/
structure ComputerPlayer where
  attackHistory : List (Nat × Nat)
  aiStrategy : String
deriving DecidableEq, Repr

/-- Failure modes of `ComputerPlayer.attack`: the exhaustion throw, a board
error bubbling up from `receiveAttack`, or the modelling-artifact fuel cut. -/
inductive ComputerAttackError where
  | exhausted
  | outOfFuel
  | boardError (e : AttackError)
deriving DecidableEq, Repr

/-- Player.js `ComputerPlayer.attack(opponentBoard)`: throw if the attack
memory already covers `size ** 2` cells; otherwise generate a coordinate via
the strategy, record it, delegate to `receiveAttack` and return
`{result, x, y}` (paired here with the updated player and board). -/
def ComputerPlayer.attack (p : ComputerPlayer) (opponentBoard : Gameboard)
    (stream : Nat → Nat × Nat) (r fuel : Nat) :
    Except ComputerAttackError (String × Nat × Nat × ComputerPlayer × Gameboard) :=
  if opponentBoard.size ^ 2 ≤ p.attackHistory.length then .error .exhausted
  else
    match generateAttackCoordinates p.aiStrategy opponentBoard.size opponentBoard.board
        p.attackHistory stream r fuel with
    | none => .error .outOfFuel
    | some (x, y) =>
      match opponentBoard.receiveAttack (x : Int) (y : Int) with
      | .error e => .error (.boardError e)
      | .ok (res, board2) =>
        .ok (res, x, y, { p with attackHistory := setAdd p.attackHistory (x, y) }, board2)

/-! ## gameSetup.js: the placement planner -/

/-- gameSetup.js `pickRandomDirection()`:
`VALID_DIRECTIONS[floor(random * 4)]`. -/
def pickRandomDirection (r : Nat) : String :=
  VALID_DIRECTIONS.getD (r % VALID_DIRECTIONS.length) "N"

/-- One iteration of the `tryPlaceShip` while-condition: `placeShip` at a
random origin and direction, drawn from the stream entry for attempt `k`. -/
def placementAttempt (b : Gameboard) (len : Nat) (stream : Nat → Nat × Nat × Nat)
    (k : Nat) : Except String PlaceShipResult :=
  b.placeShip ((stream k).1 % b.size) ((stream k).2.1 % b.size) len
    (pickRandomDirection (stream k).2.2)

/-- The `tryPlaceShip` exhaustion message:
"Failed to place L-length ship after N attempts". -/
def placementExhaustMsg (len maxA : Nat) : String :=
  "Failed to place " ++ toString len ++ "-length ship after " ++ toString maxA ++
    " attempts"

/-- The `tryPlaceShip` retry loop from attempt `k` on: stop at the first
success; after a failed attempt increment the counter and throw once it
reaches `maxA`.  Hard errors from `placeShip` propagate. -/
def tryPlaceShipGo (b : Gameboard) (len maxA : Nat) (stream : Nat → Nat × Nat × Nat)
    (k : Nat) : Except String Gameboard :=
  match placementAttempt b len stream k with
  | .error e => .error e
  | .ok (.placed b2 _) => .ok b2
  | .ok (.failed _ _ _) =>
    if maxA ≤ k + 1 then .error (placementExhaustMsg len maxA)
    else tryPlaceShipGo b len maxA stream (k + 1)
termination_by maxA - k
decreasing_by omega

/-- gameSetup.js `tryPlaceShip(board, length, maxAttempts)`. -/
def tryPlaceShip (b : Gameboard) (len maxA : Nat) (stream : Nat → Nat × Nat × Nat) :
    Except String Gameboard :=
  tryPlaceShipGo b len maxA stream 0

/-- gameSetup.js `shipLengths.reduce((a, b) => a + b, 0)`. -/
def totalShipCellsOf (shipLengths : List Nat) : Nat := shipLengths.foldl (· + ·) 0

/-- The step-1 capacity test of gameSetup.js `placeShipsRandom`:
`totalShipCells > totalBoardCells * BOARD_CAPACITY_THRESHOLD` with the
threshold constant 0.3.  For every constructor-valid board size (5..10) the
IEEE-double comparison of the source agrees exactly with the rational
comparison `10 * total > 3 * size^2` embedded here. -/
def capacityExceeded (b : Gameboard) (total : Nat) : Bool :=
  decide (3 * b.size ^ 2 < 10 * total)

/-- The inner loop of step 2 of `placeShipsRandom`: place each fleet length
on the board in order (`i` indexes the ship for the draw stream). -/
def placeFleetOnBoard (stream : Nat → Nat → Nat × Nat × Nat) :
    Gameboard → List Nat → Nat → Except String Gameboard
  | b, [], _ => .ok b
  | b, len :: rest, i =>
    match tryPlaceShip b len MAX_PLACEMENT_ATTEMPTS (stream i) with
    | .error e => .error e
    | .ok b2 => placeFleetOnBoard stream b2 rest (i + 1)

/-- The outer loop of step 2 of `placeShipsRandom` over the batch. -/
def placeBoards (stream : Nat → Nat → Nat → Nat × Nat × Nat) (shipLengths : List Nat) :
    List Gameboard → Nat → Except String (List Gameboard)
  | [], _ => .ok []
  | b :: rest, i =>
    match placeFleetOnBoard (stream i) b shipLengths 0 with
    | .error e => .error e
    | .ok b2 =>
      match placeBoards stream shipLengths rest (i + 1) with
      | .error e => .error e
      | .ok bs => .ok (b2 :: bs)

/-- gameSetup.js `placeShipsRandom(boards, shipLengths)`: step 1 validates
every board of the batch against the 30% capacity threshold and throws
before any placement; only if all pass does step 2 place each board's
fleet. -/
def placeShipsRandom (boards : List Gameboard) (shipLengths : List Nat)
    (stream : Nat → Nat → Nat → Nat × Nat × Nat) : Except String (List Gameboard) :=
  if boards.any (fun b => capacityExceeded b (totalShipCellsOf shipLengths)) then
    .error "Board too small for these ships"
  else
    placeBoards stream shipLengths boards 0

/-- Decidable equality for `Except` results, used to evaluate witnesses. -/
instance exceptDecEq {ε α : Type} [DecidableEq ε] [DecidableEq α] :
    DecidableEq (Except ε α) :=
  fun x y =>
    match x, y with
    | .error a, .error b =>
      match decEq a b with
      | isTrue h => isTrue (by rw [h])
      | isFalse h => isFalse (fun hh => by cases hh; exact h rfl)
    | .ok a, .ok b =>
      match decEq a b with
      | isTrue h => isTrue (by rw [h])
      | isFalse h => isFalse (fun hh => by cases hh; exact h rfl)
    | .error _, .ok _ => isFalse (fun hh => by cases hh)
    | .ok _, .error _ => isFalse (fun hh => by cases hh)

/-- Modelled from the spec's words for the fallback phase ("pick any
remaining not-yet-attempted cell in row-major scan order", rows ascending,
columns ascending within each row).  Used only to compare the specified
order with the code's actual fallback order.  Inner column loop of a row. -/
def rowMajorFromX (history : List (Nat × Nat)) (y : Nat) : Nat → Nat → Option (Nat × Nat)
  | _, 0 => none
  | x, rem + 1 =>
    if setHas history (x, y) then rowMajorFromX history y (x + 1) rem
    else some (x, y)

/-- Modelled from the spec: outer row loop of the row-major scan. -/
def rowMajorFromY (history : List (Nat × Nat)) (size : Nat) : Nat → Nat → Option (Nat × Nat)
  | _, 0 => none
  | y, rem + 1 =>
    match rowMajorFromX history y 0 size with
    | some c => some c
    | none => rowMajorFromY history size (y + 1) rem

/-- Modelled from the spec: the first not-yet-attempted cell in row-major
scan order. -/
def rowMajorFirstUnattempted (size : Nat) (history : List (Nat × Nat)) :
    Option (Nat × Nat) :=
  rowMajorFromY history size 0 size

/-- True exactly for a cell holding a ship reference. -/
def cellIsShip (c : Cell) : Bool :=
  match c with
  | Cell.shipRef _ => true
  | _ => false

/-- The set of in-bounds coordinates of board `b` referencing ship `i`. -/
def shipCells (b : Gameboard) (i : Nat) : Finset (Nat × Nat) :=
  (Finset.range b.size ×ˢ Finset.range b.size).filter
    (fun c => b.cellAtN c.1 c.2 = Cell.shipRef i)

/-- Folding `receiveAttack` over a sequence of coordinates: the list of
result strings and the final board, or `none` if any attack fails hard. -/
def attackSeq (b : Gameboard) : List (Nat × Nat) → Option (List String × Gameboard)
  | [] => some ([], b)
  | c :: rest =>
    match b.receiveAttack (c.1 : Int) (c.2 : Int) with
    | .error _ => none
    | .ok (res, b2) =>
      match attackSeq b2 rest with
      | none => none
      | some (results, bF) => some (res :: results, bF)

/-- A cell reference is valid: a `shipRef` index is below the ship count. -/
def shipRefValid (c : Cell) (n : Nat) : Bool :=
  match c with
  | Cell.shipRef i => decide (i < n)
  | _ => true

/-- A fresh, consistent board, as produced by construction and placements
before any attack: well-formed grid; no hit/miss marks; every cell reference
valid; every ship unhit, with positive length equal to its cell count. -/
def FreshBoard (b : Gameboard) : Prop :=
  GridWF b ∧
  (∀ x, x < b.size → ∀ y, y < b.size →
    b.cellAtN x y ≠ Cell.hit ∧ b.cellAtN x y ≠ Cell.miss ∧
    shipRefValid (b.cellAtN x y) b.ships.length = true) ∧
  (∀ i, i < b.ships.length →
    (b.ships.getD i ⟨0, 0⟩).timesHit = 0 ∧
    0 < (b.ships.getD i ⟨0, 0⟩).length ∧
    (shipCells b i).card = (b.ships.getD i ⟨0, 0⟩).length)

instance (b : Gameboard) : Decidable (FreshBoard b) := by
  unfold FreshBoard
  infer_instance

/-- Relation between a fresh board `b0`, a set `A` of already-attacked
coordinates, and the current board `b` of the attack fold: the grid marks
exactly the attacked cells (hit over ships, miss over water) and each ship's
damage equals its number of attacked cells. -/
def Rel (b0 : Gameboard) (A : Finset (Nat × Nat)) (b : Gameboard) : Prop :=
  GridWF b ∧ b.size = b0.size ∧ b.ships.length = b0.ships.length ∧
  (∀ x, x < b0.size → ∀ y, y < b0.size →
    b.cellAtN x y =
      if (x, y) ∈ A then
        (match b0.cellAtN x y with
         | Cell.shipRef _ => Cell.hit
         | _ => Cell.miss)
      else b0.cellAtN x y) ∧
  (∀ i, i < b0.ships.length →
    (b.ships.getD i ⟨0, 0⟩).length = (b0.ships.getD i ⟨0, 0⟩).length ∧
    (b.ships.getD i ⟨0, 0⟩).timesHit = (A ∩ shipCells b0 i).card)

/-! ## Claim C8: ship hit saturation -/

/-- After k hits from fresh, `timesHit = min k L`. -/
theorem Ship.hitIter_timesHit (L k : Nat) :
    ((Ship.hitIter ⟨L, 0⟩ k).timesHit = min k L) ∧ (Ship.hitIter ⟨L, 0⟩ k).length = L := by
  induction k with
  | zero => simp [Ship.hitIter]
  | succ k ih =>
    obtain ⟨ih1, ih2⟩ := ih
    unfold Ship.hitIter Ship.hit Ship.isSunk
    simp only [ih2, decide_eq_true_eq]
    by_cases h : L ≤ (Ship.hitIter ⟨L, 0⟩ k).timesHit
    · rw [if_pos h]
      refine ⟨?_, ih2⟩
      rw [ih1]
      rw [ih1] at h
      omega
    · rw [if_neg h]
      refine ⟨?_, rfl⟩
      simp only [ih1]
      rw [ih1] at h
      omega

/-- Claim C8: for every ship of length L (2 ≤ L ≤ 5) and every k: after k
calls to `hit()`, `timesHit = min k L`; `isSunk()` is true iff
`timesHit = L`; a further `hit()` saturates at L (a no-op once sunk); and
`timesHit` never exceeds L. -/
theorem C8_ship_saturation (L k : Nat) (h2 : 2 ≤ L) (h5 : L ≤ 5) :
    ((Ship.hitIter ⟨L, 0⟩ k).timesHit = min k L) ∧
    ((Ship.hitIter ⟨L, 0⟩ k).isSunk = true ↔ (Ship.hitIter ⟨L, 0⟩ k).timesHit = L) ∧
    (L ≤ k → (Ship.hitIter ⟨L, 0⟩ k).hit = Ship.hitIter ⟨L, 0⟩ k) ∧
    (Ship.hitIter ⟨L, 0⟩ k).timesHit ≤ L := by
  obtain ⟨h1, hL⟩ := Ship.hitIter_timesHit L k
  refine ⟨h1, ?_, ?_, ?_⟩
  · rw [Ship.isSunk, hL, h1]
    constructor
    · intro h
      have := of_decide_eq_true h
      omega
    · intro h
      apply decide_eq_true
      omega
  · intro hk
    rw [Ship.hit]
    have : (Ship.hitIter ⟨L, 0⟩ k).isSunk = true := by
      rw [Ship.isSunk, hL, h1]
      apply decide_eq_true
      omega
    rw [this]
    simp
  · rw [h1]; omega

/-- Witness for C8 at L = 3, k = 7. -/
theorem C8_ship_saturation_witness :
    ((Ship.hitIter ⟨3, 0⟩ 7).timesHit = min 7 3) ∧
    ((Ship.hitIter ⟨3, 0⟩ 7).isSunk = true ↔ (Ship.hitIter ⟨3, 0⟩ 7).timesHit = 3) ∧
    (3 ≤ 7 → (Ship.hitIter ⟨3, 0⟩ 7).hit = Ship.hitIter ⟨3, 0⟩ 7) ∧
    (Ship.hitIter ⟨3, 0⟩ 7).timesHit ≤ 3 :=
  C8_ship_saturation 3 7 (by decide) (by decide)

/-! ## Grid lemmas -/

theorem Gameboard.cellAt_eq_cellAtN (b : Gameboard) (x y : Int) :
    b.cellAt x y = b.cellAtN x.toNat y.toNat := rfl

theorem Gameboard.withinBoard_iff (b : Gameboard) (x y : Int) :
    b.withinBoard x y = true ↔ 0 ≤ x ∧ x < (b.size : Int) ∧ 0 ≤ y ∧ y < (b.size : Int) := by
  unfold Gameboard.withinBoard
  rw [decide_eq_true_eq]
  omega

theorem listGetD_set {α : Type} (l : List α) (i j : Nat) (a d : α) :
    (l.set i a).getD j d = if j = i ∧ i < l.length then a else l.getD j d := by
  induction l generalizing i j with
  | nil => simp
  | cons hd tl ih =>
    cases i with
    | zero =>
      cases j with
      | zero => simp
      | succ j => simp
    | succ i =>
      cases j with
      | zero => simp
      | succ j =>
        simp only [List.set_cons_succ, List.getD_cons_succ, List.length_cons, ih]
        have : (j + 1 = i + 1 ∧ i + 1 < tl.length + 1) ↔ (j = i ∧ i < tl.length) := by omega
        rw [if_congr this rfl rfl]

theorem Gameboard.setCell_size (b : Gameboard) (x y : Int) (c : Cell) :
    (b.setCell x y c).size = b.size := rfl

theorem Gameboard.setCell_ships (b : Gameboard) (x y : Int) (c : Cell) :
    (b.setCell x y c).ships = b.ships := rfl

theorem GridWF.setCell {b : Gameboard} (h : GridWF b) (x y : Int) (c : Cell) :
    GridWF (b.setCell x y c) := by
  obtain ⟨hlen, hrow⟩ := h
  refine ⟨by simpa [Gameboard.setCell] using hlen, ?_⟩
  intro i hi
  show ((b.board.set y.toNat ((b.board.getD y.toNat []).set x.toNat c)).getD i []).length = b.size
  rw [listGetD_set]
  split
  · next heq =>
    rw [List.length_set]
    obtain ⟨h1, _⟩ := heq
    subst h1
    exact hrow _ hi
  · exact hrow i hi

/-- Effect of `setCell` on cell reads, for an in-bounds write target. -/
theorem Gameboard.cellAtN_setCell (b : Gameboard) (hwf : GridWF b) (x y : Int) (c : Cell)
    (x' y' : Nat) (hx : x.toNat < b.size) (hy : y.toNat < b.size) :
    (b.setCell x y c).cellAtN x' y' =
      if x' = x.toNat ∧ y' = y.toNat then c else b.cellAtN x' y' := by
  obtain ⟨hlen, hrow⟩ := hwf
  show ((b.board.set y.toNat ((b.board.getD y.toNat []).set x.toNat c)).getD y' []).getD x'
      Cell.empty = _
  rw [listGetD_set]
  by_cases hyy : y' = y.toNat
  · rw [if_pos ⟨hyy, by omega⟩]
    rw [listGetD_set]
    by_cases hxx : x' = x.toNat
    · rw [if_pos ⟨hxx, by rw [hrow y.toNat hy]; omega⟩, if_pos ⟨hxx, hyy⟩]
    · rw [if_neg (by tauto), if_neg (by tauto)]
      unfold Gameboard.cellAtN
      rw [hyy]
  · rw [if_neg (by tauto), if_neg (by tauto)]
    rfl

/-! ## Branch evaluation lemmas for receiveAttack -/

theorem Gameboard.receiveAttack_out {b : Gameboard} {x y : Int}
    (hw : b.withinBoard x y = false) :
    b.receiveAttack x y = .error .outOfRange := by
  unfold Gameboard.receiveAttack
  rw [if_pos hw]

theorem Gameboard.receiveAttack_hitCell {b : Gameboard} {x y : Int}
    (hw : b.withinBoard x y = true) (hc : b.cellAt x y = Cell.hit) :
    b.receiveAttack x y = .error .alreadyAttacked := by
  unfold Gameboard.receiveAttack
  rw [if_neg (by simp [hw]), hc]

theorem Gameboard.receiveAttack_missCell {b : Gameboard} {x y : Int}
    (hw : b.withinBoard x y = true) (hc : b.cellAt x y = Cell.miss) :
    b.receiveAttack x y = .error .alreadyAttacked := by
  unfold Gameboard.receiveAttack
  rw [if_neg (by simp [hw]), hc]

theorem Gameboard.receiveAttack_empty {b : Gameboard} {x y : Int}
    (hw : b.withinBoard x y = true) (hc : b.cellAt x y = Cell.empty) :
    b.receiveAttack x y = .ok ("miss", b.setCell x y Cell.miss) := by
  unfold Gameboard.receiveAttack
  rw [if_neg (by simp [hw]), hc]

theorem Gameboard.receiveAttack_ship {b : Gameboard} {x y : Int} {idx : Nat}
    (hw : b.withinBoard x y = true) (hc : b.cellAt x y = Cell.shipRef idx) :
    b.receiveAttack x y = .ok (b.shipHitResult x y idx, b.shipHitBoard x y idx) := by
  unfold Gameboard.receiveAttack Gameboard.shipHitResult Gameboard.shipHitBoard
  rw [if_neg (by simp [hw]), hc]
  simp only
  split
  · rfl
  · split
    · rfl
    · rfl

/-! ## Claim C9: receiveAttack hard-failure characterization -/

/-- Claim C9: `receiveAttack` fails hard exactly when the (integer)
coordinates are out of bounds or the cell is already `hit`/`miss`; the error
is `outOfRange` for bad coordinates, `alreadyAttacked` for re-attacks; and a
second attack on a just-attacked cell always fails.  (Non-integer coordinates
are excluded by the `Int` type of the embedding; a failing call returns no
board, so the board is trivially unchanged.) -/
theorem C9_receiveAttack_failure (b : Gameboard) (x y : Int) (hwf : GridWF b) :
    (b.receiveAttack x y = .error .outOfRange ↔ b.withinBoard x y = false) ∧
    (b.receiveAttack x y = .error .alreadyAttacked ↔
      (b.withinBoard x y = true ∧ (b.cellAt x y = Cell.hit ∨ b.cellAt x y = Cell.miss))) ∧
    ((∃ e, b.receiveAttack x y = .error e) ↔
      (b.withinBoard x y = false ∨ b.cellAt x y = Cell.hit ∨ b.cellAt x y = Cell.miss)) ∧
    (∀ res b2, b.receiveAttack x y = .ok (res, b2) →
      b2.receiveAttack x y = .error .alreadyAttacked) := by
  by_cases hw : b.withinBoard x y = true
  · have hxb : x.toNat < b.size := by
      rw [Gameboard.withinBoard_iff] at hw; omega
    have hyb : y.toNat < b.size := by
      rw [Gameboard.withinBoard_iff] at hw; omega
    have hsetHit : ∀ c : Cell, (b.setCell x y c).cellAt x y = c := by
      intro c
      rw [Gameboard.cellAt_eq_cellAtN, Gameboard.cellAtN_setCell b hwf x y c _ _ hxb hyb,
        if_pos ⟨rfl, rfl⟩]
    have hsetWithin : ∀ c : Cell, (b.setCell x y c).withinBoard x y = true := by
      intro c
      rw [Gameboard.withinBoard_iff]
      rw [Gameboard.withinBoard_iff] at hw
      exact hw
    cases hc : b.cellAt x y with
    | empty =>
      rw [Gameboard.receiveAttack_empty hw hc]
      refine ⟨by simp [hw], by simp [hc], by simp [hw, hc], ?_⟩
      intro res b2 heq
      injection heq with heq
      injection heq with h1 h2
      subst h2
      exact Gameboard.receiveAttack_missCell (hsetWithin _) (hsetHit _)
    | shipRef idx =>
      rw [Gameboard.receiveAttack_ship hw hc]
      refine ⟨by simp [hw], by simp [hc], by simp [hw, hc], ?_⟩
      intro res b2 heq
      injection heq with heq
      injection heq with h1 h2
      subst h2
      have hwin2 : (b.shipHitBoard x y idx).withinBoard x y = true := by
        rw [Gameboard.withinBoard_iff]
        rw [Gameboard.withinBoard_iff] at hw
        exact hw
      have hcell2 : (b.shipHitBoard x y idx).cellAt x y = Cell.hit := by
        show (b.setCell x y Cell.hit).cellAt x y = Cell.hit
        exact hsetHit _
      exact Gameboard.receiveAttack_hitCell hwin2 hcell2
    | miss =>
      rw [Gameboard.receiveAttack_missCell hw hc]
      exact ⟨by simp [hw], by simp [hw, hc], by simp [hc], by simp⟩
    | hit =>
      rw [Gameboard.receiveAttack_hitCell hw hc]
      exact ⟨by simp [hw], by simp [hw, hc], by simp [hc], by simp⟩
  · have hw' : b.withinBoard x y = false := by
      cases h : b.withinBoard x y
      · rfl
      · exact absurd h hw
    rw [Gameboard.receiveAttack_out hw']
    exact ⟨by simp [hw'], by simp [hw'], by simp [hw'], by simp⟩

/-- Witness for C9 on a concrete well-formed 5×5 board, at (3, 3). -/
theorem C9_receiveAttack_failure_witness :
    letI b : Gameboard :=
      { size := 5
        board := List.replicate 5 (List.replicate 5 Cell.empty)
        ships := [] }
    (b.receiveAttack 3 3 = .error .outOfRange ↔ b.withinBoard 3 3 = false) ∧
    (b.receiveAttack 3 3 = .error .alreadyAttacked ↔
      (b.withinBoard 3 3 = true ∧ (b.cellAt 3 3 = Cell.hit ∨ b.cellAt 3 3 = Cell.miss))) ∧
    ((∃ e, b.receiveAttack 3 3 = .error e) ↔
      (b.withinBoard 3 3 = false ∨ b.cellAt 3 3 = Cell.hit ∨ b.cellAt 3 3 = Cell.miss)) ∧
    (∀ res b2, b.receiveAttack 3 3 = .ok (res, b2) →
      b2.receiveAttack 3 3 = .error .alreadyAttacked) :=
  C9_receiveAttack_failure _ 3 3 (by decide)

/-! ## Claim C3: placeShip validation order and failure reporting -/

theorem Gameboard.canPlaceFrom_valid_iff (b : Gameboard) (x y dx dy : Int) :
    ∀ (rem i : Nat), b.canPlaceFrom x y dx dy i rem = .valid ↔
      ∀ j : Nat, i ≤ j → j < i + rem →
        (b.withinBoard (x + (j : Int) * dx) (y + (j : Int) * dy) = true ∧
         b.cellAt (x + (j : Int) * dx) (y + (j : Int) * dy) = Cell.empty) := by
  intro rem
  induction rem with
  | zero =>
    intro i
    simp only [Gameboard.canPlaceFrom]
    constructor
    · intro _ j h1 h2
      omega
    · intro _
      trivial
  | succ rem ih =>
    intro i
    simp only [Gameboard.canPlaceFrom]
    by_cases hwin : b.withinBoard (x + (i : Int) * dx) (y + (i : Int) * dy) = false
    · rw [if_pos hwin]
      constructor
      · intro h
        exact absurd h (by simp)
      · intro h
        have := (h i (le_refl i) (by omega)).1
        rw [this] at hwin
        cases hwin
    · have hwin' : b.withinBoard (x + (i : Int) * dx) (y + (i : Int) * dy) = true := by
        revert hwin
        cases b.withinBoard (x + (i : Int) * dx) (y + (i : Int) * dy) <;> simp
      rw [if_neg hwin]
      by_cases hcell : b.cellAt (x + (i : Int) * dx) (y + (i : Int) * dy) = Cell.empty
      · rw [if_neg (fun hne => hne hcell), ih (i + 1)]
        constructor
        · intro h j hj1 hj2
          rcases Nat.eq_or_lt_of_le hj1 with heq | hlt
          · subst heq
            exact ⟨hwin', hcell⟩
          · exact h j hlt (by omega)
        · intro h j hj1 hj2
          exact h j (by omega) (by omega)
      · rw [if_pos hcell]
        constructor
        · intro h
          exact absurd h (by simp)
        · intro h
          exact absurd (h i (le_refl i) (by omega)).2 hcell

theorem Gameboard.canPlaceFrom_invalid (b : Gameboard) (x y dx dy : Int) :
    ∀ (rem i : Nat) (reason : String) (pos : FailPos),
      b.canPlaceFrom x y dx dy i rem = .invalid reason pos →
      ∃ k : Nat, i ≤ k ∧ k < i + rem ∧
        pos = ⟨x + (k : Int) * dx, y + (k : Int) * dy, k⟩ ∧
        (∀ j : Nat, i ≤ j → j < k →
          b.withinBoard (x + (j : Int) * dx) (y + (j : Int) * dy) = true ∧
          b.cellAt (x + (j : Int) * dx) (y + (j : Int) * dy) = Cell.empty) ∧
        ((reason = "out-of-bounds" ∧
            b.withinBoard (x + (k : Int) * dx) (y + (k : Int) * dy) = false) ∨
         (reason = "cell-occupied" ∧
            b.withinBoard (x + (k : Int) * dx) (y + (k : Int) * dy) = true ∧
            b.cellAt (x + (k : Int) * dx) (y + (k : Int) * dy) ≠ Cell.empty)) := by
  intro rem
  induction rem with
  | zero =>
    intro i reason pos h
    exact absurd h (by simp [Gameboard.canPlaceFrom])
  | succ rem ih =>
    intro i reason pos h
    rw [Gameboard.canPlaceFrom] at h
    by_cases hwin : b.withinBoard (x + (i : Int) * dx) (y + (i : Int) * dy) = false
    · rw [if_pos hwin] at h
      injection h with h1 h2
      refine ⟨i, le_refl i, by omega, h2.symm, ?_, Or.inl ⟨h1.symm, hwin⟩⟩
      intro j hj1 hj2
      omega
    · have hwin' : b.withinBoard (x + (i : Int) * dx) (y + (i : Int) * dy) = true := by
        revert hwin
        cases b.withinBoard (x + (i : Int) * dx) (y + (i : Int) * dy) <;> simp
      rw [if_neg hwin] at h
      by_cases hcell : b.cellAt (x + (i : Int) * dx) (y + (i : Int) * dy) = Cell.empty
      · rw [if_neg (fun hne => hne hcell)] at h
        obtain ⟨k, hk1, hk2, hk3, hk4, hk5⟩ := ih (i + 1) reason pos h
        refine ⟨k, by omega, by omega, hk3, ?_, hk5⟩
        intro j hj1 hj2
        rcases Nat.eq_or_lt_of_le hj1 with heq | hlt
        · subst heq
          exact ⟨hwin', hcell⟩
        · exact hk4 j hlt hj2
      · rw [if_pos hcell] at h
        injection h with h1 h2
        refine ⟨i, le_refl i, by omega, h2.symm, ?_, Or.inr ⟨h1.symm, hwin', hcell⟩⟩
        intro j hj1 hj2
        omega

/-- Claim C3: for a valid direction, a failed `placeShip` reports the first
offending segment — all earlier segments are in-bounds and empty, the
position is the offending coordinate with its segment index, the reason tag
matches ("out-of-bounds" when the segment leaves the board, otherwise
"cell-occupied" for a non-empty cell), and the carried board is exactly the
input board (no partial placement); conversely, whenever some segment is bad,
the call returns such a failure result (never a placed ship). -/
theorem C3_placeShip_validation (b : Gameboard) (x y : Int) (len : Nat) (dir : String)
    (hdir : VALID_DIRECTIONS.contains dir = true) :
    (∀ b' reason pos, b.placeShip x y len dir = .ok (.failed b' reason pos) →
      b' = b ∧ pos.segment < len ∧
      pos.x = x + (pos.segment : Int) * (deltaFor dir).1 ∧
      pos.y = y + (pos.segment : Int) * (deltaFor dir).2 ∧
      (∀ j : Nat, j < pos.segment →
        b.withinBoard (x + (j : Int) * (deltaFor dir).1) (y + (j : Int) * (deltaFor dir).2)
            = true ∧
        b.cellAt (x + (j : Int) * (deltaFor dir).1) (y + (j : Int) * (deltaFor dir).2)
            = Cell.empty) ∧
      ((reason = "out-of-bounds" ∧ b.withinBoard pos.x pos.y = false) ∨
       (reason = "cell-occupied" ∧ b.withinBoard pos.x pos.y = true ∧
         b.cellAt pos.x pos.y ≠ Cell.empty))) ∧
    ((∃ j : Nat, j < len ∧
        ¬(b.withinBoard (x + (j : Int) * (deltaFor dir).1) (y + (j : Int) * (deltaFor dir).2)
              = true ∧
          b.cellAt (x + (j : Int) * (deltaFor dir).1) (y + (j : Int) * (deltaFor dir).2)
              = Cell.empty)) →
      ∃ reason pos, b.placeShip x y len dir = .ok (.failed b reason pos)) := by
  constructor
  · intro b' reason pos heq
    unfold Gameboard.placeShip at heq
    rw [if_neg (by rw [hdir]; simp)] at heq
    cases hcp : b.canPlaceShip x y len (deltaFor dir) with
    | valid =>
      rw [hcp] at heq
      by_cases hlen : len < MIN_SHIP_LENGTH ∨ MAX_SHIP_LENGTH < len
      · rw [if_pos hlen] at heq
        cases heq
      · rw [if_neg hlen] at heq
        injection heq with h
        exact absurd h (by simp)
    | invalid r p =>
      rw [hcp] at heq
      simp only [Except.ok.injEq, PlaceShipResult.failed.injEq] at heq
      obtain ⟨hb, hr, hp⟩ := heq
      subst hb
      subst hr
      subst hp
      obtain ⟨k, _, hk2, hk3, hk4, hk5⟩ :=
        Gameboard.canPlaceFrom_invalid b x y (deltaFor dir).1 (deltaFor dir).2 len 0 r p hcp
      subst hk3
      refine ⟨rfl, by simpa using hk2, rfl, rfl, ?_, hk5⟩
      intro j hj
      exact hk4 j (by omega) hj
  · intro hbad
    cases hcp : b.canPlaceShip x y len (deltaFor dir) with
    | valid =>
      exfalso
      obtain ⟨j, hj, hnot⟩ := hbad
      have := (Gameboard.canPlaceFrom_valid_iff b x y (deltaFor dir).1 (deltaFor dir).2
        len 0).mp hcp j (by omega) (by omega)
      exact hnot this
    | invalid r p =>
      refine ⟨r, p, ?_⟩
      unfold Gameboard.placeShip
      rw [if_neg (by rw [hdir]; simp), hcp]

/-- Witness for C3: a 5×5 board with an occupied cell at (0, 2); placing a
length-3 ship south from (0, 0) fails at segment 2 with "cell-occupied". -/
theorem C3_placeShip_validation_witness :
    letI b : Gameboard :=
      { size := 5
        board := [[Cell.empty, Cell.empty, Cell.empty, Cell.empty, Cell.empty],
                  [Cell.empty, Cell.empty, Cell.empty, Cell.empty, Cell.empty],
                  [Cell.shipRef 0, Cell.empty, Cell.empty, Cell.empty, Cell.empty],
                  [Cell.empty, Cell.empty, Cell.empty, Cell.empty, Cell.empty],
                  [Cell.empty, Cell.empty, Cell.empty, Cell.empty, Cell.empty]]
        ships := [⟨2, 0⟩] }
    (∀ b' reason pos, b.placeShip 0 0 3 "S" = .ok (.failed b' reason pos) →
      b' = b ∧ pos.segment < 3 ∧
      pos.x = 0 + (pos.segment : Int) * (deltaFor "S").1 ∧
      pos.y = 0 + (pos.segment : Int) * (deltaFor "S").2 ∧
      (∀ j : Nat, j < pos.segment →
        b.withinBoard (0 + (j : Int) * (deltaFor "S").1) (0 + (j : Int) * (deltaFor "S").2)
            = true ∧
        b.cellAt (0 + (j : Int) * (deltaFor "S").1) (0 + (j : Int) * (deltaFor "S").2)
            = Cell.empty) ∧
      ((reason = "out-of-bounds" ∧ b.withinBoard pos.x pos.y = false) ∨
       (reason = "cell-occupied" ∧ b.withinBoard pos.x pos.y = true ∧
         b.cellAt pos.x pos.y ≠ Cell.empty))) ∧
    ((∃ j : Nat, j < 3 ∧
        ¬(b.withinBoard (0 + (j : Int) * (deltaFor "S").1) (0 + (j : Int) * (deltaFor "S").2)
              = true ∧
          b.cellAt (0 + (j : Int) * (deltaFor "S").1) (0 + (j : Int) * (deltaFor "S").2)
              = Cell.empty)) →
      ∃ reason pos, b.placeShip 0 0 3 "S" = .ok (.failed b reason pos)) :=
  C3_placeShip_validation _ 0 0 3 "S" (by decide)

/-! ## Claim C5: tryPlaceShip retry ceiling -/

theorem tryPlaceShipGo_eq (b : Gameboard) (len maxA : Nat)
    (stream : Nat → Nat × Nat × Nat) (k : Nat) :
    tryPlaceShipGo b len maxA stream k =
      match placementAttempt b len stream k with
      | .error e => .error e
      | .ok (.placed b2 _) => .ok b2
      | .ok (.failed _ _ _) =>
        if maxA ≤ k + 1 then .error (placementExhaustMsg len maxA)
        else tryPlaceShipGo b len maxA stream (k + 1) := by
  rw [tryPlaceShipGo]

theorem tryPlaceShipGo_runs (b : Gameboard) (len maxA : Nat)
    (stream : Nat → Nat × Nat × Nat) :
    ∀ (d k0 : Nat) (b2 : Gameboard) (i : Nat),
      placementAttempt b len stream (k0 + d) = .ok (.placed b2 i) →
      (∀ j, k0 ≤ j → j < k0 + d →
        ∃ b3 r p, placementAttempt b len stream j = .ok (.failed b3 r p)) →
      (k0 + d < maxA ∨ d = 0) →
      tryPlaceShipGo b len maxA stream k0 = .ok b2 := by
  intro d
  induction d with
  | zero =>
    intro k0 b2 i hp _ _
    rw [tryPlaceShipGo_eq]
    rw [show k0 + 0 = k0 from rfl] at hp
    rw [hp]
  | succ d ih =>
    intro k0 b2 i hp hfail hbound
    have hb : k0 + (d + 1) < maxA := by
      rcases hbound with h | h
      · exact h
      · omega
    obtain ⟨b3, r, p, hf0⟩ := hfail k0 (le_refl k0) (by omega)
    rw [tryPlaceShipGo_eq, hf0]
    rw [if_neg (by omega)]
    refine ih (k0 + 1) b2 i ?_ ?_ (Or.inl (by omega))
    · rw [show k0 + 1 + d = k0 + (d + 1) by omega]
      exact hp
    · intro j hj1 hj2
      exact hfail j (by omega) (by omega)

theorem tryPlaceShipGo_exhaust (b : Gameboard) (len maxA : Nat)
    (stream : Nat → Nat × Nat × Nat) :
    ∀ (d k0 : Nat), k0 + d + 1 = maxA →
      (∀ j, k0 ≤ j → j < maxA →
        ∃ b3 r p, placementAttempt b len stream j = .ok (.failed b3 r p)) →
      tryPlaceShipGo b len maxA stream k0 =
        .error (placementExhaustMsg len maxA) := by
  intro d
  induction d with
  | zero =>
    intro k0 hmax hfail
    obtain ⟨b3, r, p, hf0⟩ := hfail k0 (le_refl k0) (by omega)
    rw [tryPlaceShipGo_eq, hf0, if_pos (by omega)]
  | succ d ih =>
    intro k0 hmax hfail
    obtain ⟨b3, r, p, hf0⟩ := hfail k0 (le_refl k0) (by omega)
    rw [tryPlaceShipGo_eq, hf0, if_neg (by omega)]
    refine ih (k0 + 1) (by omega) ?_
    intro j hj1 hj2
    exact hfail j (by omega) hj2

/-- Claim C5: the planner's single-ship placement loop stops at the first
successful `placeShip` attempt, and otherwise, after exactly
`MAX_PLACEMENT_ATTEMPTS` (1000) failed attempts, fails with the
placement-exhaustion error built from the ship length and the attempt
count. -/
theorem C5_tryPlaceShip_termination (b : Gameboard) (len : Nat)
    (stream : Nat → Nat × Nat × Nat) :
    (∀ (k : Nat) (b2 : Gameboard) (i : Nat), k < MAX_PLACEMENT_ATTEMPTS →
      (∀ j, j < k → ∃ b3 r p, placementAttempt b len stream j = .ok (.failed b3 r p)) →
      placementAttempt b len stream k = .ok (.placed b2 i) →
      tryPlaceShip b len MAX_PLACEMENT_ATTEMPTS stream = .ok b2) ∧
    ((∀ j, j < MAX_PLACEMENT_ATTEMPTS →
        ∃ b3 r p, placementAttempt b len stream j = .ok (.failed b3 r p)) →
      tryPlaceShip b len MAX_PLACEMENT_ATTEMPTS stream =
        .error (placementExhaustMsg len MAX_PLACEMENT_ATTEMPTS)) := by
  constructor
  · intro k b2 i hk hfail hp
    unfold tryPlaceShip
    refine tryPlaceShipGo_runs b len MAX_PLACEMENT_ATTEMPTS stream k 0 b2 i ?_ ?_ ?_
    · rw [show 0 + k = k by omega]
      exact hp
    · intro j _ hj2
      exact hfail j (by omega)
    · left
      omega
  · intro hfail
    unfold tryPlaceShip
    refine tryPlaceShipGo_exhaust b len MAX_PLACEMENT_ATTEMPTS stream 999 0 (by rfl) ?_
    intro j _ hj2
    exact hfail j hj2

/-- A concrete all-empty 5 by 5 board, used by several witnesses. -/
def board5empty : Gameboard :=
  { size := 5
    board := List.replicate 5 (List.replicate 5 Cell.empty)
    ships := [] }

theorem board5empty_north_attempt (j : Nat) :
    placementAttempt board5empty 2 (fun _ => (0, 0, 0)) j =
      .ok (.failed board5empty "out-of-bounds" ⟨0, -1, 1⟩) := by
  show board5empty.placeShip ((0 : Nat) % board5empty.size) ((0 : Nat) % board5empty.size) 2
      (pickRandomDirection 0) = .ok (.failed board5empty "out-of-bounds" ⟨0, -1, 1⟩)
  decide

/-- Witness for C5: with a constant draw stream every attempt places north
from (0,0), leaves the board at segment 1, and fails; after 1000 failed
attempts the loop reports exhaustion for the length-2 ship. -/
theorem C5_tryPlaceShip_termination_witness :
    tryPlaceShip board5empty 2 MAX_PLACEMENT_ATTEMPTS (fun _ => (0, 0, 0)) =
      .error (placementExhaustMsg 2 MAX_PLACEMENT_ATTEMPTS) :=
  (C5_tryPlaceShip_termination board5empty 2 (fun _ => (0, 0, 0))).2
    (fun j _ => ⟨board5empty, "out-of-bounds", ⟨0, -1, 1⟩, board5empty_north_attempt j⟩)

/-! ## Claim C4: batch pre-validation against the capacity threshold -/

/-- Claim C4: if any board of the batch fails the 30% capacity test, the
whole batch is rejected with the capacity error before any placement (the
functional model returns no boards, and the source throws before the
placement loop, leaving every board with zero ships); when every board
passes, the call is exactly the step-2 placement pass. -/
theorem C4_capacity_prevalidation (boards : List Gameboard) (lens : List Nat)
    (stream : Nat → Nat → Nat → Nat × Nat × Nat) :
    ((∃ b ∈ boards, capacityExceeded b (totalShipCellsOf lens) = true) →
      placeShipsRandom boards lens stream = .error "Board too small for these ships") ∧
    ((∀ b ∈ boards, capacityExceeded b (totalShipCellsOf lens) = false) →
      placeShipsRandom boards lens stream = placeBoards stream lens boards 0) := by
  constructor
  · intro h
    unfold placeShipsRandom
    rw [if_pos]
    rw [List.any_eq_true]
    obtain ⟨b, hb, hcap⟩ := h
    exact ⟨b, hb, hcap⟩
  · intro h
    unfold placeShipsRandom
    rw [if_neg]
    intro hc
    obtain ⟨b, hb, hcap⟩ := List.any_eq_true.mp hc
    rw [h b hb] at hcap
    cases hcap

/-- Witness for C4: a fleet of four length-2 ships (8 cells) exceeds 30% of a
5 by 5 board (7.5 cells), so the single-board batch is rejected. -/
theorem C4_capacity_prevalidation_witness :
    placeShipsRandom [board5empty] [2, 2, 2, 2] (fun _ _ _ => (0, 0, 0)) =
      .error "Board too small for these ships" :=
  (C4_capacity_prevalidation [board5empty] [2, 2, 2, 2] (fun _ _ _ => (0, 0, 0))).1
    ⟨board5empty, by simp, by decide⟩

/-! ## Claim C10: strategy selector default branch -/

/-- Claim C10: any strategy token other than "random" and "hunt" — including
"hunt-and-target" — falls to the default branch of the selector and uses the
random strategy; the layered hunt-and-target behaviour is selected only by
the exact token "hunt". -/
theorem C10_strategy_selector (strategy : String) (size : Nat)
    (board : List (List Cell)) (history : List (Nat × Nat))
    (stream : Nat → Nat × Nat) (r fuel : Nat)
    (h1 : strategy ≠ "random") (h2 : strategy ≠ "hunt") :
    generateAttackCoordinates strategy size board history stream r fuel =
      randomAttack size history stream 0 fuel ∧
    generateAttackCoordinates "hunt" size board history stream r fuel =
      some (huntAndTargetAttack size board history r) := by
  constructor
  · unfold generateAttackCoordinates
    rw [if_neg h1, if_neg h2]
  · unfold generateAttackCoordinates
    rw [if_neg (by decide), if_pos rfl]

/-- Witness for C10 at the token "hunt-and-target". -/
theorem C10_strategy_selector_witness :
    generateAttackCoordinates "hunt-and-target" 5 [] [] (fun _ => (0, 0)) 0 1 =
      randomAttack 5 [] (fun _ => (0, 0)) 0 1 ∧
    generateAttackCoordinates "hunt" 5 [] [] (fun _ => (0, 0)) 0 1 =
      some (huntAndTargetAttack 5 [] [] 0) :=
  C10_strategy_selector "hunt-and-target" 5 [] [] (fun _ => (0, 0)) 0 1
    (by decide) (by decide)

/-! ## Claim C2: the attack memory never repeats and exhausts exactly -/

theorem setHas_false_iff (h : List (Nat × Nat)) (c : Nat × Nat) :
    setHas h c = false ↔ c ∉ h := by
  simp [setHas]

theorem setHas_true_iff (h : List (Nat × Nat)) (c : Nat × Nat) :
    setHas h c = true ↔ c ∈ h := by
  simp [setHas]

theorem randomAttack_some (size : Nat) (h : List (Nat × Nat)) (stream : Nat → Nat × Nat) :
    ∀ (fuel k : Nat) (c : Nat × Nat), randomAttack size h stream k fuel = some c →
      setHas h c = false ∧ (0 < size → c.1 < size ∧ c.2 < size) := by
  intro fuel
  induction fuel with
  | zero =>
    intro k c hc
    exact absurd hc (by simp [randomAttack])
  | succ fuel ih =>
    intro k c hc
    rw [randomAttack] at hc
    by_cases hmem : setHas h ((stream k).1 % size, (stream k).2 % size) = true
    · rw [if_pos hmem] at hc
      exact ih (k + 1) c hc
    · rw [if_neg hmem] at hc
      injection hc with hc
      subst hc
      refine ⟨by revert hmem; cases setHas h ((stream k).1 % size, (stream k).2 % size) <;>
        simp, ?_⟩
      intro hpos
      exact ⟨Nat.mod_lt _ hpos, Nat.mod_lt _ hpos⟩

theorem firstFreeNeighbour_some (size : Nat) (h : List (Nat × Nat)) :
    ∀ (l : List (Int × Int)) (c : Nat × Nat), firstFreeNeighbour size h l = some c →
      setHas h c = false ∧ c.1 < size ∧ c.2 < size := by
  intro l
  induction l with
  | nil =>
    intro c hc
    exact absurd hc (by simp [firstFreeNeighbour])
  | cons hd rest ih =>
    intro c hc
    rw [show firstFreeNeighbour size h (hd :: rest) =
        (if hd.1 < 0 ∨ hd.2 < 0 ∨ (size : Int) ≤ hd.1 ∨ (size : Int) ≤ hd.2 then
          firstFreeNeighbour size h rest
        else if setHas h (hd.1.toNat, hd.2.toNat) then firstFreeNeighbour size h rest
        else some (hd.1.toNat, hd.2.toNat)) from by
      cases hd
      rw [firstFreeNeighbour]] at hc
    by_cases hb : hd.1 < 0 ∨ hd.2 < 0 ∨ (size : Int) ≤ hd.1 ∨ (size : Int) ≤ hd.2
    · rw [if_pos hb] at hc
      exact ih c hc
    · rw [if_neg hb] at hc
      by_cases hmem : setHas h (hd.1.toNat, hd.2.toNat) = true
      · rw [if_pos hmem] at hc
        exact ih c hc
      · rw [if_neg hmem] at hc
        injection hc with hc
        subst hc
        refine ⟨by revert hmem; cases setHas h (hd.1.toNat, hd.2.toNat) <;> simp, by omega,
          by omega⟩

theorem targetScanRow_some (size : Nat) (h : List (Nat × Nat)) (row : Nat) :
    ∀ (cells : List Cell) (col : Nat) (c : Nat × Nat),
      targetScanRow size h row col cells = some c →
      setHas h c = false ∧ c.1 < size ∧ c.2 < size := by
  intro cells
  induction cells with
  | nil =>
    intro col c hc
    exact absurd hc (by simp [targetScanRow])
  | cons hd rest ih =>
    intro col c hc
    rw [targetScanRow] at hc
    by_cases hh : isHit hd = true
    · rw [if_pos hh] at hc
      cases hf : firstFreeNeighbour size h (neighboursOf col row) with
      | some r =>
        rw [hf] at hc
        injection hc with hc
        subst hc
        exact firstFreeNeighbour_some size h _ _ hf
      | none =>
        rw [hf] at hc
        exact ih (col + 1) c hc
    · rw [if_neg hh] at hc
      exact ih (col + 1) c hc

theorem targetScan_some (size : Nat) (h : List (Nat × Nat)) :
    ∀ (rows : List (List Cell)) (row : Nat) (c : Nat × Nat),
      targetScan size h row rows = some c →
      setHas h c = false ∧ c.1 < size ∧ c.2 < size := by
  intro rows
  induction rows with
  | nil =>
    intro row c hc
    exact absurd hc (by simp [targetScan])
  | cons hd rest ih =>
    intro row c hc
    rw [targetScan] at hc
    cases hr : targetScanRow size h row 0 hd with
    | some r =>
      rw [hr] at hc
      injection hc with hc
      subst hc
      exact targetScanRow_some size h row hd 0 _ hr
    | none =>
      rw [hr] at hc
      exact ih (row + 1) c hc

theorem huntCandidates_mem (size : Nat) (h : List (Nat × Nat)) :
    ∀ c ∈ huntCandidates size h, setHas h c = false ∧ c.1 < size ∧ c.2 < size := by
  intro c hc
  unfold huntCandidates at hc
  simp only [List.mem_bind, List.mem_filterMap, List.mem_range] at hc
  obtain ⟨x, hx, y, hy, hif⟩ := hc
  by_cases h1 : setHas h (x, y) = true
  · rw [if_pos h1] at hif
    cases hif
  · rw [if_neg h1] at hif
    by_cases h2 : (x + y) % 2 = 0
    · rw [if_pos h2] at hif
      injection hif with hif
      subst hif
      refine ⟨by revert h1; cases setHas h (x, y) <;> simp, hx, hy⟩
    · rw [if_neg h2] at hif
      cases hif

theorem listGetD_mem {α : Type} (l : List α) (d : α) (i : Nat) (hi : i < l.length) :
    l.getD i d ∈ l := by
  rw [List.getD_eq_getElem l d hi]
  exact List.getElem_mem hi

theorem fallbackFromY_some (h : List (Nat × Nat)) (x : Nat) :
    ∀ (rem y : Nat) (c : Nat × Nat), fallbackFromY h x y rem = some c →
      c.1 = x ∧ y ≤ c.2 ∧ c.2 < y + rem ∧ setHas h c = false := by
  intro rem
  induction rem with
  | zero =>
    intro y c hc
    exact absurd hc (by simp [fallbackFromY])
  | succ rem ih =>
    intro y c hc
    rw [fallbackFromY] at hc
    by_cases hm : setHas h (x, y) = true
    · rw [if_pos hm] at hc
      obtain ⟨h1, h2, h3, h4⟩ := ih (y + 1) c hc
      exact ⟨h1, by omega, by omega, h4⟩
    · rw [if_neg hm] at hc
      injection hc with hc
      subst hc
      exact ⟨rfl, le_refl y, by omega,
        by revert hm; cases setHas h (x, y) <;> simp⟩

theorem fallbackFromY_none (h : List (Nat × Nat)) (x : Nat) :
    ∀ (rem y : Nat), fallbackFromY h x y rem = none →
      ∀ y2, y ≤ y2 → y2 < y + rem → setHas h (x, y2) = true := by
  intro rem
  induction rem with
  | zero =>
    intro y _ y2 h1 h2
    omega
  | succ rem ih =>
    intro y hc y2 h1 h2
    rw [fallbackFromY] at hc
    by_cases hm : setHas h (x, y) = true
    · rw [if_pos hm] at hc
      rcases Nat.eq_or_lt_of_le h1 with heq | hlt
      · subst heq
        exact hm
      · exact ih (y + 1) hc y2 hlt (by omega)
    · rw [if_neg hm] at hc
      cases hc

theorem fallbackFromX_some (h : List (Nat × Nat)) (size : Nat) :
    ∀ (rem x : Nat) (c : Nat × Nat), fallbackFromX h size x rem = some c →
      x ≤ c.1 ∧ c.1 < x + rem ∧ c.2 < size ∧ setHas h c = false := by
  intro rem
  induction rem with
  | zero =>
    intro x c hc
    exact absurd hc (by simp [fallbackFromX])
  | succ rem ih =>
    intro x c hc
    rw [fallbackFromX] at hc
    cases hy : fallbackFromY h x 0 size with
    | some c2 =>
      rw [hy] at hc
      injection hc with hc
      subst hc
      obtain ⟨h1, _, h3, h4⟩ := fallbackFromY_some h x size 0 _ hy
      exact ⟨by omega, by omega, by omega, h4⟩
    | none =>
      rw [hy] at hc
      obtain ⟨h1, h2, h3, h4⟩ := ih (x + 1) c hc
      exact ⟨by omega, by omega, h3, h4⟩

theorem fallbackFromX_none (h : List (Nat × Nat)) (size : Nat) :
    ∀ (rem x : Nat), fallbackFromX h size x rem = none →
      ∀ x2, x ≤ x2 → x2 < x + rem → ∀ y2, y2 < size → setHas h (x2, y2) = true := by
  intro rem
  induction rem with
  | zero =>
    intro x _ x2 h1 h2
    omega
  | succ rem ih =>
    intro x hc x2 h1 h2 y2 hy2
    rw [fallbackFromX] at hc
    cases hy : fallbackFromY h x 0 size with
    | some c2 =>
      rw [hy] at hc
      cases hc
    | none =>
      rw [hy] at hc
      rcases Nat.eq_or_lt_of_le h1 with heq | hlt
      · subst heq
        exact fallbackFromY_none h x size 0 hy y2 (by omega) (by omega)
      · exact ih (x + 1) hc x2 hlt (by omega) y2 hy2

theorem fallbackPhase_isSome (size : Nat) (h : List (Nat × Nat))
    (hnd : h.Nodup) (hmem : ∀ c ∈ h, c.1 < size ∧ c.2 < size)
    (hlen : h.length < size ^ 2) : ∃ c, fallbackPhase size h = some c := by
  cases hf : fallbackPhase size h with
  | some c => exact ⟨c, rfl⟩
  | none =>
    exfalso
    have hall : ∀ x, x < size → ∀ y, y < size → (x, y) ∈ h := by
      intro x hx y hy
      have := fallbackFromX_none h size size 0 hf x (by omega) (by omega) y hy
      exact (setHas_true_iff h (x, y)).mp this
    have hsub : (Finset.range size) ×ˢ (Finset.range size) ⊆ h.toFinset := by
      intro c hc
      rw [Finset.mem_product, Finset.mem_range, Finset.mem_range] at hc
      rw [List.mem_toFinset]
      exact hall c.1 hc.1 c.2 hc.2
    have hcard := Finset.card_le_card hsub
    rw [Finset.card_product, Finset.card_range, List.toFinset_card_of_nodup hnd] at hcard
    rw [pow_two] at hlen
    omega

theorem huntAndTargetAttack_eq_target {size : Nat} {board : List (List Cell)}
    {h : List (Nat × Nat)} {r : Nat} {c : Nat × Nat}
    (ht : targetPhase size board h = some c) :
    huntAndTargetAttack size board h r = c := by
  unfold huntAndTargetAttack
  rw [ht]

theorem huntAndTargetAttack_eq_hunt {size : Nat} {board : List (List Cell)}
    {h : List (Nat × Nat)} {r : Nat} (ht : targetPhase size board h = none)
    (hc : (huntCandidates size h).length ≠ 0) :
    huntAndTargetAttack size board h r =
      (huntCandidates size h).getD (r % (huntCandidates size h).length) (0, 0) := by
  unfold huntAndTargetAttack
  rw [ht]
  show (if (huntCandidates size h).length ≠ 0 then
      (huntCandidates size h).getD (r % (huntCandidates size h).length) (0, 0)
    else
      match fallbackPhase size h with
      | some c => c
      | none => (0, 0)) = _
  rw [if_pos hc]

theorem huntAndTargetAttack_eq_fallback {size : Nat} {board : List (List Cell)}
    {h : List (Nat × Nat)} {r : Nat} {c : Nat × Nat}
    (ht : targetPhase size board h = none)
    (hc : ¬(huntCandidates size h).length ≠ 0) (hf : fallbackPhase size h = some c) :
    huntAndTargetAttack size board h r = c := by
  unfold huntAndTargetAttack
  rw [ht]
  show (if (huntCandidates size h).length ≠ 0 then
      (huntCandidates size h).getD (r % (huntCandidates size h).length) (0, 0)
    else
      match fallbackPhase size h with
      | some c => c
      | none => (0, 0)) = _
  rw [if_neg hc, hf]

theorem huntAndTargetAttack_fresh (size : Nat) (board : List (List Cell))
    (h : List (Nat × Nat)) (r : Nat) (hnd : h.Nodup)
    (hmem : ∀ c ∈ h, c.1 < size ∧ c.2 < size) (hlen : h.length < size ^ 2) :
    setHas h (huntAndTargetAttack size board h r) = false ∧
    (huntAndTargetAttack size board h r).1 < size ∧
    (huntAndTargetAttack size board h r).2 < size := by
  cases ht : targetPhase size board h with
  | some c =>
    rw [huntAndTargetAttack_eq_target ht]
    exact targetScan_some size h board 0 c ht
  | none =>
    by_cases hc : (huntCandidates size h).length ≠ 0
    · rw [huntAndTargetAttack_eq_hunt ht hc]
      refine huntCandidates_mem size h _ ?_
      exact listGetD_mem _ _ _ (Nat.mod_lt _ (by omega))
    · obtain ⟨c, hfb⟩ := fallbackPhase_isSome size h hnd hmem hlen
      rw [huntAndTargetAttack_eq_fallback ht hc hfb]
      obtain ⟨_, h2, h3, h4⟩ := fallbackFromX_some h size size 0 c hfb
      exact ⟨h4, by omega, h3⟩

theorem generateAttackCoordinates_fresh (strategy : String) (size : Nat)
    (board : List (List Cell)) (h : List (Nat × Nat)) (stream : Nat → Nat × Nat)
    (r fuel : Nat) (c : Nat × Nat) (hnd : h.Nodup)
    (hmem : ∀ d ∈ h, d.1 < size ∧ d.2 < size) (hlen : h.length < size ^ 2) :
    generateAttackCoordinates strategy size board h stream r fuel = some c →
    setHas h c = false ∧ c.1 < size ∧ c.2 < size := by
  have hpos : 0 < size := by
    rcases Nat.eq_zero_or_pos size with h0 | h0
    · subst h0
      simp at hlen
    · exact h0
  intro hg
  unfold generateAttackCoordinates at hg
  by_cases h1 : strategy = "random"
  · rw [if_pos h1] at hg
    obtain ⟨ha, hb⟩ := randomAttack_some size h stream fuel 0 c hg
    exact ⟨ha, hb hpos⟩
  · rw [if_neg h1] at hg
    by_cases h2 : strategy = "hunt"
    · rw [if_pos h2] at hg
      injection hg with hg
      subst hg
      exact huntAndTargetAttack_fresh size board h r hnd hmem hlen
    · rw [if_neg h2] at hg
      obtain ⟨ha, hb⟩ := randomAttack_some size h stream fuel 0 c hg
      exact ⟨ha, hb hpos⟩

/-- Invariant on the attack memory of an automated contestant playing a
single opponent board: no duplicates, all entries in bounds. -/
def HistoryWF (size : Nat) (h : List (Nat × Nat)) : Prop :=
  h.Nodup ∧ ∀ c ∈ h, c.1 < size ∧ c.2 < size

/-- Claim C2: once the attack memory holds `size²` coordinates the next
`attack()` fails with the exhaustion error (before touching the board); and
every successful call generates a coordinate not yet in the memory, records
it (the memory grows by exactly that coordinate), stays in bounds, and
preserves the memory invariant — so no coordinate is ever repeated. -/
theorem C2_attack_memory (p : ComputerPlayer) (b : Gameboard) (stream : Nat → Nat × Nat)
    (r fuel : Nat) (hwf : HistoryWF b.size p.attackHistory) :
    (p.attackHistory.length = b.size ^ 2 →
      p.attack b stream r fuel = .error .exhausted) ∧
    (∀ res x y p2 b2, p.attack b stream r fuel = .ok (res, x, y, p2, b2) →
      (x, y) ∉ p.attackHistory ∧
      p2.attackHistory = p.attackHistory ++ [(x, y)] ∧
      x < b.size ∧ y < b.size ∧
      HistoryWF b.size p2.attackHistory) := by
  obtain ⟨hnd, hmem⟩ := hwf
  constructor
  · intro hlen
    unfold ComputerPlayer.attack
    rw [if_pos (le_of_eq hlen.symm)]
  · intro res x y p2 b2 heq
    unfold ComputerPlayer.attack at heq
    by_cases hfull : b.size ^ 2 ≤ p.attackHistory.length
    · rw [if_pos hfull] at heq
      cases heq
    · rw [if_neg hfull] at heq
      have hlen : p.attackHistory.length < b.size ^ 2 := Nat.lt_of_not_le hfull
      split at heq
      · cases heq
      · rename_i cx cy hg
        obtain ⟨hfresh, hcx, hcy⟩ := generateAttackCoordinates_fresh p.aiStrategy b.size
          b.board p.attackHistory stream r fuel (cx, cy) hnd hmem hlen hg
        have hnotmem : (cx, cy) ∉ p.attackHistory := (setHas_false_iff _ _).mp hfresh
        split at heq
        · cases heq
        · rename_i rv bv hr
          simp only [Except.ok.injEq, Prod.mk.injEq] at heq
          obtain ⟨hres, hx, hy, hp2, hb2⟩ := heq
          subst hx
          subst hy
          have hadd : setAdd p.attackHistory (cx, cy) = p.attackHistory ++ [(cx, cy)] := by
            unfold setAdd
            rw [if_neg (by rw [hfresh]; simp)]
          refine ⟨hnotmem, ?_, hcx, hcy, ?_, ?_⟩
          · rw [← hp2]
            exact hadd
          · rw [← hp2, hadd]
            rw [List.nodup_append]
            refine ⟨hnd, List.nodup_singleton _, ?_⟩
            intro a ha hb
            rw [List.mem_singleton] at hb
            subst hb
            exact hnotmem ha
          · rw [← hp2, hadd]
            intro d hd
            rw [List.mem_append] at hd
            rcases hd with hd | hd
            · exact hmem d hd
            · rw [List.mem_singleton] at hd
              subst hd
              exact ⟨hcx, hcy⟩

/-- Witness for C2 on a fresh random-strategy contestant against the empty
5 by 5 board. -/
theorem C2_attack_memory_witness :
    letI p : ComputerPlayer := { attackHistory := [], aiStrategy := "random" }
    (p.attackHistory.length = board5empty.size ^ 2 →
      p.attack board5empty (fun _ => (0, 0)) 0 1 = .error .exhausted) ∧
    (∀ res x y p2 b2, p.attack board5empty (fun _ => (0, 0)) 0 1 = .ok (res, x, y, p2, b2) →
      (x, y) ∉ p.attackHistory ∧
      p2.attackHistory = p.attackHistory ++ [(x, y)] ∧
      x < board5empty.size ∧ y < board5empty.size ∧
      HistoryWF board5empty.size p2.attackHistory) :=
  C2_attack_memory { attackHistory := [], aiStrategy := "random" } board5empty
    (fun _ => (0, 0)) 0 1 ⟨List.nodup_nil, by simp⟩

/-! ## Claim C6: target phase scan order and neighbour priority -/

theorem targetScanRow_none_of_noHit (size : Nat) (h : List (Nat × Nat)) (row : Nat) :
    ∀ (cells : List Cell) (col : Nat),
      (∀ j, isHit (cells.getD j Cell.empty) = false) →
      targetScanRow size h row col cells = none := by
  intro cells
  induction cells with
  | nil =>
    intro col _
    rfl
  | cons hd rest ih =>
    intro col hno
    rw [targetScanRow]
    rw [if_neg (by have := hno 0; simp only [List.getD_cons_zero] at this; simp [this])]
    refine ih (col + 1) ?_
    intro j
    have := hno (j + 1)
    simpa using this

theorem targetScanRow_finds (size : Nat) (h : List (Nat × Nat)) (row : Nat) (c : Nat × Nat) :
    ∀ (k : Nat) (cells : List Cell) (col : Nat),
      (∀ j, j < k → isHit (cells.getD j Cell.empty) = false) →
      isHit (cells.getD k Cell.empty) = true →
      firstFreeNeighbour size h (neighboursOf (col + k) row) = some c →
      targetScanRow size h row col cells = some c := by
  intro k
  induction k with
  | zero =>
    intro cells col _ hhit hfn
    cases cells with
    | nil => simp [isHit] at hhit
    | cons hd rest =>
      rw [targetScanRow]
      simp only [List.getD_cons_zero] at hhit
      rw [if_pos hhit]
      rw [show col + 0 = col from rfl] at hfn
      rw [hfn]
  | succ k ih =>
    intro cells col hno hhit hfn
    cases cells with
    | nil => simp [isHit] at hhit
    | cons hd rest =>
      have h0 : isHit hd = false := by
        have := hno 0 (by omega)
        simpa using this
      rw [targetScanRow]
      rw [if_neg (by simp [h0])]
      refine ih rest (col + 1) ?_ (by simpa using hhit) ?_
      · intro j hj
        have := hno (j + 1) (by omega)
        simpa using this
      · rw [show col + 1 + k = col + (k + 1) by omega]
        exact hfn

theorem targetScan_finds (size : Nat) (h : List (Nat × Nat)) (c : Nat × Nat) :
    ∀ (k : Nat) (rows : List (List Cell)) (row0 : Nat),
      (∀ j, j < k → ∀ col, isHit ((rows.getD j []).getD col Cell.empty) = false) →
      targetScanRow size h (row0 + k) 0 (rows.getD k []) = some c →
      targetScan size h row0 rows = some c := by
  intro k
  induction k with
  | zero =>
    intro rows row0 _ hfind
    cases rows with
    | nil => simp [targetScanRow] at hfind
    | cons r rest =>
      rw [targetScan]
      simp only [List.getD_cons_zero] at hfind
      rw [show row0 + 0 = row0 from rfl] at hfind
      rw [hfind]
  | succ k ih =>
    intro rows row0 hno hfind
    cases rows with
    | nil => simp [targetScanRow] at hfind
    | cons r rest =>
      rw [targetScan]
      rw [targetScanRow_none_of_noHit size h row0 r 0
        (by intro j; have := hno 0 (by omega) j; simpa using this)]
      refine ih rest (row0 + 1) ?_ ?_
      · intro j hj col
        have := hno (j + 1) (by omega) col
        simpa using this
      · rw [show row0 + 1 + k = row0 + (k + 1) by omega]
        simpa using hfind

/-- Claim C6: in the target phase the board is scanned row-major; for a board
whose only Hit cell is `(hx, hy)` (column hx, row hy) the four orthogonal
neighbours are tried in the fixed order (+x, -x, +y, -y) and the first
in-bounds one not in the attack memory is the strategy's result. -/
theorem C6_target_phase (size : Nat) (board : List (List Cell)) (h : List (Nat × Nat))
    (r hx hy : Nat) (c : Nat × Nat)
    (hrow : hy < board.length)
    (hhit : isHit ((board.getD hy []).getD hx Cell.empty) = true)
    (honly : ∀ row, row < board.length → ∀ col, col < (board.getD row []).length →
      ¬(row = hy ∧ col = hx) →
      isHit ((board.getD row []).getD col Cell.empty) = false)
    (hfn : firstFreeNeighbour size h (neighboursOf hx hy) = some c) :
    targetPhase size board h = some c ∧ huntAndTargetAttack size board h r = c := by
  have honlyFull : ∀ row col, ¬(row = hy ∧ col = hx) →
      isHit ((board.getD row []).getD col Cell.empty) = false := by
    intro row col hne
    by_cases h1 : row < board.length
    · by_cases h2 : col < (board.getD row []).length
      · exact honly row h1 col h2 hne
      · rw [List.getD_eq_default _ _ (by omega)]
        simp [isHit]
    · rw [show board.getD row [] = [] from List.getD_eq_default _ _ (by omega)]
      simp [isHit]
  have htp : targetPhase size board h = some c := by
    unfold targetPhase
    refine targetScan_finds size h c hy board 0 ?_ ?_
    · intro j hj col
      exact honlyFull j col (by omega)
    · rw [show 0 + hy = hy from by omega]
      refine targetScanRow_finds size h hy c hx (board.getD hy []) 0 ?_ hhit ?_
      · intro j hj
        exact honlyFull hy j (by omega)
      · rw [show 0 + hx = hx from by omega]
        exact hfn
  exact ⟨htp, huntAndTargetAttack_eq_target htp⟩

/-- Witness for C6: a 5 by 5 board whose only Hit cell is (2,2) with empty
attack memory; the strategy attacks (3,2), the +x neighbour. -/
theorem C6_target_phase_witness :
    letI clear : List Cell :=
      [Cell.empty, Cell.empty, Cell.empty, Cell.empty, Cell.empty]
    letI board : List (List Cell) :=
      [clear, clear,
       [Cell.empty, Cell.empty, Cell.hit, Cell.empty, Cell.empty],
       clear, clear]
    targetPhase 5 board [] = some (3, 2) ∧ huntAndTargetAttack 5 board [] 0 = (3, 2) :=
  C6_target_phase 5 _ [] 0 2 2 (3, 2) (by decide) (by decide) (by decide) (by decide)

/-! ## Claim C7: fallback phase scan order -/

theorem fallbackFromY_min (h : List (Nat × Nat)) (x : Nat) :
    ∀ (rem y : Nat) (c : Nat × Nat), fallbackFromY h x y rem = some c →
      ∀ y2, y ≤ y2 → y2 < c.2 → setHas h (x, y2) = true := by
  intro rem
  induction rem with
  | zero =>
    intro y c hc
    exact absurd hc (by simp [fallbackFromY])
  | succ rem ih =>
    intro y c hc y2 h1 h2
    rw [fallbackFromY] at hc
    by_cases hm : setHas h (x, y) = true
    · rw [if_pos hm] at hc
      rcases Nat.eq_or_lt_of_le h1 with heq | hlt
      · subst heq
        exact hm
      · exact ih (y + 1) c hc y2 hlt h2
    · rw [if_neg hm] at hc
      injection hc with hc
      subst hc
      simp only at h2
      omega
  
theorem fallbackFromX_min (h : List (Nat × Nat)) (size : Nat) :
    ∀ (rem x : Nat) (c : Nat × Nat), fallbackFromX h size x rem = some c →
      (∀ x2, x ≤ x2 → x2 < c.1 → ∀ y2, y2 < size → setHas h (x2, y2) = true) ∧
      (∀ y2, y2 < c.2 → setHas h (c.1, y2) = true) := by
  intro rem
  induction rem with
  | zero =>
    intro x c hc
    exact absurd hc (by simp [fallbackFromX])
  | succ rem ih =>
    intro x c hc
    rw [fallbackFromX] at hc
    cases hy : fallbackFromY h x 0 size with
    | some c2 =>
      rw [hy] at hc
      injection hc with hc
      subst hc
      have hx1 : c2.1 = x := (fallbackFromY_some h x size 0 c2 hy).1
      constructor
      · intro x2 hx2a hx2b
        omega
      · intro y2 hy2
        rw [hx1]
        exact fallbackFromY_min h x size 0 c2 hy y2 (by omega) hy2
    | none =>
      rw [hy] at hc
      obtain ⟨hmin1, hmin2⟩ := ih (x + 1) c hc
      have hx1 : x + 1 ≤ c.1 := (fallbackFromX_some h size rem (x + 1) c hc).1
      constructor
      · intro x2 hx2a hx2b y2 hy2
        rcases Nat.eq_or_lt_of_le hx2a with heq | hlt
        · subst heq
          exact fallbackFromY_none h x size 0 hy y2 (by omega) (by omega)
        · exact hmin1 x2 hlt hx2b y2 hy2
      · exact hmin2

/-- Claim C7 as amended: when the target phase yields nothing, the
checkerboard candidate set is empty and at least one cell remains
unattempted, the strategy returns the fallback scan's first unattempted cell
in column-major order — x ascending in the outer loop, y ascending within
each column (not row-major as the spec states). -/
theorem C7_fallback_column_major (size : Nat) (board : List (List Cell))
    (h : List (Nat × Nat)) (r : Nat)
    (ht : targetPhase size board h = none)
    (hc : huntCandidates size h = [])
    (hex : ∃ x, x < size ∧ ∃ y, y < size ∧ (x, y) ∉ h) :
    ∃ c : Nat × Nat, fallbackPhase size h = some c ∧
      huntAndTargetAttack size board h r = c ∧
      c.1 < size ∧ c.2 < size ∧ c ∉ h ∧
      (∀ x y, x < size → y < size → (x, y) ∉ h →
        (c.1 < x ∨ (c.1 = x ∧ c.2 ≤ y))) := by
  obtain ⟨x0, hx0, y0, hy0, hfree⟩ := hex
  have hsome : ∃ c, fallbackPhase size h = some c := by
    cases hf : fallbackPhase size h with
    | some c => exact ⟨c, rfl⟩
    | none =>
      exfalso
      have := fallbackFromX_none h size size 0 hf x0 (by omega) (by omega) y0 hy0
      exact hfree ((setHas_true_iff h (x0, y0)).mp this)
  obtain ⟨c, hf⟩ := hsome
  obtain ⟨_, hlt, hy, hfresh⟩ := fallbackFromX_some h size size 0 c hf
  obtain ⟨hmin1, hmin2⟩ := fallbackFromX_min h size size 0 c hf
  refine ⟨c, hf, huntAndTargetAttack_eq_fallback ht (by rw [hc]; simp) hf, by omega, hy,
    (setHas_false_iff h c).mp hfresh, ?_⟩
  intro x y hx hyy hnot
  by_cases h1 : x < c.1
  · exfalso
    exact hnot ((setHas_true_iff h (x, y)).mp (hmin1 x (by omega) h1 y hyy))
  · by_cases h2 : x = c.1
    · by_cases h3 : y < c.2
      · exfalso
        refine hnot ((setHas_true_iff h (x, y)).mp ?_)
        rw [h2]
        exact hmin2 y h3
      · right
        exact ⟨h2.symm, by omega⟩
    · left
      omega

/-- Counterexample for C7 as stated: with every even-parity cell of a 5 by 5
board already attacked (and no Hit cells), the code's fallback returns
(0, 1) — the column-major first unattempted cell — whereas the row-major
first unattempted cell demanded by the spec is (1, 0). -/
theorem C7_fallback_counterexample :
    letI hist : List (Nat × Nat) :=
      [(0, 0), (0, 2), (0, 4), (1, 1), (1, 3), (2, 0), (2, 2), (2, 4),
       (3, 1), (3, 3), (4, 0), (4, 2), (4, 4)]
    letI clear : List Cell :=
      [Cell.empty, Cell.empty, Cell.empty, Cell.empty, Cell.empty]
    letI board : List (List Cell) := [clear, clear, clear, clear, clear]
    targetPhase 5 board hist = none ∧
    huntCandidates 5 hist = [] ∧
    ((0, 1) : Nat × Nat) ∉ hist ∧ ((1, 0) : Nat × Nat) ∉ hist ∧
    huntAndTargetAttack 5 board hist 0 = (0, 1) ∧
    rowMajorFirstUnattempted 5 hist = some (1, 0) ∧
    ((0, 1) : Nat × Nat) ≠ (1, 0) := by
  decide

/-- Witness for the amended C7 at the counterexample state. -/
theorem C7_fallback_column_major_witness :
    letI hist : List (Nat × Nat) :=
      [(0, 0), (0, 2), (0, 4), (1, 1), (1, 3), (2, 0), (2, 2), (2, 4),
       (3, 1), (3, 3), (4, 0), (4, 2), (4, 4)]
    letI clear : List Cell :=
      [Cell.empty, Cell.empty, Cell.empty, Cell.empty, Cell.empty]
    letI board : List (List Cell) := [clear, clear, clear, clear, clear]
    ∃ c : Nat × Nat, fallbackPhase 5 hist = some c ∧
      huntAndTargetAttack 5 board hist 0 = c ∧
      c.1 < 5 ∧ c.2 < 5 ∧ c ∉ hist ∧
      (∀ x y, x < 5 → y < 5 → (x, y) ∉ hist →
        (c.1 < x ∨ (c.1 = x ∧ c.2 ≤ y))) :=
  C7_fallback_column_major 5 _ _ 0 (by decide) (by decide)
    ⟨1, by decide, 0, by decide, by decide⟩

/-! ## Claim C1: helper lemmas for the attack fold -/

theorem shipRefValid_shipRef {i n : Nat} (h : shipRefValid (Cell.shipRef i) n = true) :
    i < n := by
  unfold shipRefValid at h
  exact of_decide_eq_true h

theorem Gameboard.withinBoardN (b : Gameboard) {x y : Nat}
    (hx : x < b.size) (hy : y < b.size) : b.withinBoard (x : Int) (y : Int) = true := by
  rw [Gameboard.withinBoard_iff]
  omega

theorem Gameboard.cellAt_natCast (b : Gameboard) (x y : Nat) :
    b.cellAt (x : Int) (y : Int) = b.cellAtN x y := by
  rw [Gameboard.cellAt_eq_cellAtN, Int.toNat_natCast, Int.toNat_natCast]

theorem cellAtN_setCell_nat (b : Gameboard) (hwf : GridWF b) (x y : Nat) (c : Cell)
    (x2 y2 : Nat) (hx : x < b.size) (hy : y < b.size) :
    (b.setCell (x : Int) (y : Int) c).cellAtN x2 y2 =
      if x2 = x ∧ y2 = y then c else b.cellAtN x2 y2 := by
  have := Gameboard.cellAtN_setCell b hwf (x : Int) (y : Int) c x2 y2
    (by simpa using hx) (by simpa using hy)
  simpa using this

theorem Gameboard.allSunk_iff (b : Gameboard) :
    b.allSunk = true ↔
      ∀ j, j < b.ships.length → (b.ships.getD j ⟨0, 0⟩).isSunk = true := by
  unfold Gameboard.allSunk
  rw [List.all_eq_true]
  constructor
  · intro h j hj
    exact h _ (listGetD_mem _ _ _ hj)
  · intro h s hs
    rw [List.mem_iff_getElem] at hs
    obtain ⟨j, hj, he⟩ := hs
    have := h j hj
    rw [List.getD_eq_getElem _ _ hj] at this
    rw [← he]
    exact this

theorem mem_shipCells {b : Gameboard} {i : Nat} {c : Nat × Nat} :
    c ∈ shipCells b i ↔
      c.1 < b.size ∧ c.2 < b.size ∧ b.cellAtN c.1 c.2 = Cell.shipRef i := by
  unfold shipCells
  rw [Finset.mem_filter, Finset.mem_product, Finset.mem_range, Finset.mem_range]
  tauto

theorem inter_card_eq_iff_subset {A S : Finset (Nat × Nat)} :
    (A ∩ S).card = S.card ↔ S ⊆ A := by
  constructor
  · intro h
    have heq : A ∩ S = S :=
      Finset.eq_of_subset_of_card_le Finset.inter_subset_right (le_of_eq h.symm)
    rw [← Finset.inter_eq_right]
    exact heq
  · intro h
    rw [Finset.inter_eq_right.mpr h]

theorem attack_step_ship (b0 : Gameboard) (hf : FreshBoard b0) (A : Finset (Nat × Nat))
    (b : Gameboard) (hrel : Rel b0 A b) (x y i : Nat)
    (hx : x < b0.size) (hy : y < b0.size) (hA : (x, y) ∉ A)
    (hcell : b0.cellAtN x y = Cell.shipRef i) :
    b.receiveAttack (x : Int) (y : Int) = .ok
      ((if ∀ j, j < b0.ships.length → shipCells b0 j ⊆ insert (x, y) A then "sunk-all"
        else if shipCells b0 i ⊆ insert (x, y) A then "sunk" else "hit"),
       b.shipHitBoard (x : Int) (y : Int) i) ∧
    Rel b0 (insert (x, y) A) (b.shipHitBoard (x : Int) (y : Int) i) := by
  obtain ⟨hwf, hsz, hnum, hgrid, hships⟩ := hrel
  obtain ⟨hwf0, hfresh0, hships0⟩ := hf
  have hi : i < b0.ships.length := by
    have hv := (hfresh0 x hx y hy).2.2
    rw [hcell] at hv
    exact shipRefValid_shipRef hv
  have hbx : x < b.size := by omega
  have hby : y < b.size := by omega
  have hcb : b.cellAtN x y = Cell.shipRef i := by
    rw [hgrid x hx y hy, if_neg hA]
    exact hcell
  have hwin : b.withinBoard (x : Int) (y : Int) = true := b.withinBoardN hbx hby
  have hra := Gameboard.receiveAttack_ship hwin (by rw [Gameboard.cellAt_natCast]; exact hcb)
  have hmemcell : (x, y) ∈ shipCells b0 i := mem_shipCells.mpr ⟨hx, hy, hcell⟩
  have hcardlen := (hships0 i hi).2.2
  have hlen := (hships i hi).1
  have hth := (hships i hi).2
  have hthlt : (b.ships.getD i ⟨0, 0⟩).timesHit < (b.ships.getD i ⟨0, 0⟩).length := by
    rw [hth, hlen, ← hcardlen]
    refine Finset.card_lt_card ?_
    rw [Finset.ssubset_iff_of_subset Finset.inter_subset_right]
    exact ⟨(x, y), hmemcell, fun hin => hA (Finset.mem_inter.mp hin).1⟩
  have hnotsunk : (b.ships.getD i ⟨0, 0⟩).isSunk = false := by
    unfold Ship.isSunk
    simp only [decide_eq_false_iff_not]
    omega
  have hhit : (b.ships.getD i ⟨0, 0⟩).hit =
      ⟨(b.ships.getD i ⟨0, 0⟩).length, (b.ships.getD i ⟨0, 0⟩).timesHit + 1⟩ := by
    unfold Ship.hit
    rw [hnotsunk]
    rfl
  have hinter_i : (insert (x, y) A ∩ shipCells b0 i).card =
      (A ∩ shipCells b0 i).card + 1 := by
    rw [Finset.insert_inter_of_mem hmemcell]
    rw [Finset.card_insert_of_not_mem (fun hin => hA (Finset.mem_inter.mp hin).1)]
  have hinter_ne : ∀ j, j ≠ i →
      insert (x, y) A ∩ shipCells b0 j = A ∩ shipCells b0 j := by
    intro j hj
    refine Finset.insert_inter_of_not_mem ?_
    intro hin
    rw [mem_shipCells] at hin
    rw [hcell] at hin
    injection hin.2.2 with he
    exact hj he.symm
  have hgetset : ∀ j, (b.ships.set i ((b.ships.getD i ⟨0, 0⟩).hit)).getD j ⟨0, 0⟩ =
      if j = i then (b.ships.getD i ⟨0, 0⟩).hit else b.ships.getD j ⟨0, 0⟩ := by
    intro j
    rw [listGetD_set]
    by_cases hji : j = i
    · rw [if_pos ⟨hji, by omega⟩, if_pos hji]
    · rw [if_neg (by tauto), if_neg hji]
  have hships2 : ∀ j, j < b0.ships.length →
      ((b.shipHitBoard (x : Int) (y : Int) i).ships.getD j ⟨0, 0⟩).length =
        (b0.ships.getD j ⟨0, 0⟩).length ∧
      ((b.shipHitBoard (x : Int) (y : Int) i).ships.getD j ⟨0, 0⟩).timesHit =
        (insert (x, y) A ∩ shipCells b0 j).card := by
    intro j hj
    show ((b.ships.set i ((b.ships.getD i ⟨0, 0⟩).hit)).getD j ⟨0, 0⟩).length = _ ∧
      ((b.ships.set i ((b.ships.getD i ⟨0, 0⟩).hit)).getD j ⟨0, 0⟩).timesHit = _
    rw [hgetset j]
    by_cases hji : j = i
    · subst hji
      rw [if_pos rfl, hhit]
      exact ⟨hlen, by rw [hinter_i, ← hth]⟩
    · rw [if_neg hji, hinter_ne j hji]
      exact ⟨(hships j hj).1, (hships j hj).2⟩
  have hrel2 : Rel b0 (insert (x, y) A) (b.shipHitBoard (x : Int) (y : Int) i) := by
    refine ⟨?_, ?_, ?_, ?_, hships2⟩
    · exact hwf.setCell (x : Int) (y : Int) Cell.hit
    · exact hsz
    · show (b.ships.set i _).length = b0.ships.length
      rw [List.length_set]
      exact hnum
    · intro x2 hx2 y2 hy2
      show (b.setCell (x : Int) (y : Int) Cell.hit).cellAtN x2 y2 = _
      rw [cellAtN_setCell_nat b hwf x y Cell.hit x2 y2 hbx hby]
      by_cases heq : x2 = x ∧ y2 = y
      · obtain ⟨he1, he2⟩ := heq
        subst he1
        subst he2
        rw [if_pos ⟨rfl, rfl⟩, if_pos (Finset.mem_insert_self _ _), hcell]
      · rw [if_neg heq]
        have hmem : ((x2, y2) ∈ insert (x, y) A) ↔ ((x2, y2) ∈ A) := by
          rw [Finset.mem_insert]
          constructor
          · intro hh
            rcases hh with hh | hh
            · exfalso
              apply heq
              rw [Prod.mk.injEq] at hh
              exact hh
            · exact hh
          · intro hh
            exact Or.inr hh
        rw [hgrid x2 hx2 y2 hy2]
        by_cases hmm : (x2, y2) ∈ A
        · rw [if_pos hmm, if_pos (hmem.mpr hmm)]
        · rw [if_neg hmm, if_neg (fun hh => hmm (hmem.mp hh))]
  have hAllIff : ((b.shipHitBoard (x : Int) (y : Int) i).allSunk = true) ↔
      (∀ j, j < b0.ships.length → shipCells b0 j ⊆ insert (x, y) A) := by
    rw [Gameboard.allSunk_iff]
    have hlen2 : (b.shipHitBoard (x : Int) (y : Int) i).ships.length = b0.ships.length := by
      show (b.ships.set i _).length = b0.ships.length
      rw [List.length_set]
      exact hnum
    constructor
    · intro h j hj
      have := h j (by omega)
      unfold Ship.isSunk at this
      rw [decide_eq_true_eq] at this
      obtain ⟨hl2, ht2⟩ := hships2 j hj
      rw [hl2, ht2] at this
      have hcj := (hships0 j hj).2.2
      have hle : (insert (x, y) A ∩ shipCells b0 j).card ≤ (shipCells b0 j).card :=
        Finset.card_le_card Finset.inter_subset_right
      refine inter_card_eq_iff_subset.mp ?_
      omega
    · intro h j hj
      have hj0 : j < b0.ships.length := by omega
      obtain ⟨hl2, ht2⟩ := hships2 j hj0
      unfold Ship.isSunk
      rw [decide_eq_true_eq, hl2, ht2]
      have := inter_card_eq_iff_subset.mpr (h j hj0)
      rw [this]
      rw [(hships0 j hj0).2.2]
  have hSunkIff : (((b.ships.getD i ⟨0, 0⟩).hit).isSunk = true) ↔
      shipCells b0 i ⊆ insert (x, y) A := by
    rw [hhit]
    unfold Ship.isSunk
    rw [decide_eq_true_eq]
    simp only
    rw [hth, hlen]
    have hle : (insert (x, y) A ∩ shipCells b0 i).card ≤ (shipCells b0 i).card :=
      Finset.card_le_card Finset.inter_subset_right
    constructor
    · intro hh
      refine inter_card_eq_iff_subset.mp ?_
      omega
    · intro hh
      have := inter_card_eq_iff_subset.mpr hh
      omega
  have hresult : b.shipHitResult (x : Int) (y : Int) i =
      (if ∀ j, j < b0.ships.length → shipCells b0 j ⊆ insert (x, y) A then "sunk-all"
       else if shipCells b0 i ⊆ insert (x, y) A then "sunk" else "hit") := by
    unfold Gameboard.shipHitResult
    by_cases hall : ∀ j, j < b0.ships.length → shipCells b0 j ⊆ insert (x, y) A
    · rw [if_pos (hAllIff.mpr hall), if_pos hall]
    · rw [if_neg (fun hb => hall (hAllIff.mp hb)), if_neg hall]
      by_cases hsunk : shipCells b0 i ⊆ insert (x, y) A
      · rw [if_pos (hSunkIff.mpr hsunk), if_pos hsunk]
      · rw [if_neg (fun hb => hsunk (hSunkIff.mp hb)), if_neg hsunk]
  rw [hra, hresult]
  exact ⟨rfl, hrel2⟩

theorem attack_step_empty (b0 : Gameboard) (A : Finset (Nat × Nat))
    (b : Gameboard) (hrel : Rel b0 A b) (x y : Nat)
    (hx : x < b0.size) (hy : y < b0.size) (hA : (x, y) ∉ A)
    (hcell : b0.cellAtN x y = Cell.empty) :
    b.receiveAttack (x : Int) (y : Int) =
      .ok ("miss", b.setCell (x : Int) (y : Int) Cell.miss) ∧
    Rel b0 (insert (x, y) A) (b.setCell (x : Int) (y : Int) Cell.miss) := by
  obtain ⟨hwf, hsz, hnum, hgrid, hships⟩ := hrel
  have hbx : x < b.size := by omega
  have hby : y < b.size := by omega
  have hcb : b.cellAtN x y = Cell.empty := by
    rw [hgrid x hx y hy, if_neg hA]
    exact hcell
  have hwin : b.withinBoard (x : Int) (y : Int) = true := b.withinBoardN hbx hby
  have hra := Gameboard.receiveAttack_empty hwin
    (by rw [Gameboard.cellAt_natCast]; exact hcb)
  have hinter_ne : ∀ j, insert (x, y) A ∩ shipCells b0 j = A ∩ shipCells b0 j := by
    intro j
    refine Finset.insert_inter_of_not_mem ?_
    intro hin
    rw [mem_shipCells] at hin
    rw [hcell] at hin
    cases hin.2.2
  refine ⟨hra, ?_, hsz, ?_, ?_, ?_⟩
  · exact hwf.setCell (x : Int) (y : Int) Cell.miss
  · exact hnum
  · intro x2 hx2 y2 hy2
    show (b.setCell (x : Int) (y : Int) Cell.miss).cellAtN x2 y2 = _
    rw [cellAtN_setCell_nat b hwf x y Cell.miss x2 y2 hbx hby]
    by_cases heq : x2 = x ∧ y2 = y
    · obtain ⟨he1, he2⟩ := heq
      subst he1
      subst he2
      rw [if_pos ⟨rfl, rfl⟩, if_pos (Finset.mem_insert_self _ _), hcell]
    · rw [if_neg heq]
      have hmem : ((x2, y2) ∈ insert (x, y) A) ↔ ((x2, y2) ∈ A) := by
        rw [Finset.mem_insert]
        constructor
        · intro hh
          rcases hh with hh | hh
          · exfalso
            apply heq
            rw [Prod.mk.injEq] at hh
            exact hh
          · exact hh
        · intro hh
          exact Or.inr hh
      rw [hgrid x2 hx2 y2 hy2]
      by_cases hmm : (x2, y2) ∈ A
      · rw [if_pos hmm, if_pos (hmem.mpr hmm)]
      · rw [if_neg hmm, if_neg (fun hh => hmm (hmem.mp hh))]
  · intro j hj
    rw [hinter_ne j]
    show ((b.ships.getD j ⟨0, 0⟩).length = _) ∧ ((b.ships.getD j ⟨0, 0⟩).timesHit = _)
    exact hships j hj

theorem attackSeq_cons (b : Gameboard) (x y : Nat) (rest : List (Nat × Nat)) :
    attackSeq b ((x, y) :: rest) =
      match b.receiveAttack (x : Int) (y : Int) with
      | .error _ => none
      | .ok (res, b2) =>
        match attackSeq b2 rest with
        | none => none
        | some (results, bF) => some (res :: results, bF) := rfl

theorem attackSeq_cons_ok {b : Gameboard} {x y : Nat} {rest : List (Nat × Nat)}
    {res : String} {b2 : Gameboard} (h : b.receiveAttack (x : Int) (y : Int) = .ok (res, b2)) :
    attackSeq b ((x, y) :: rest) =
      match attackSeq b2 rest with
      | none => none
      | some (results, bF) => some (res :: results, bF) := by
  rw [attackSeq_cons, h]

theorem attackSeq_spec (b0 : Gameboard) (hf : FreshBoard b0) :
    ∀ (seq : List (Nat × Nat)) (A : Finset (Nat × Nat)) (b : Gameboard),
      Rel b0 A b → seq.Nodup →
      (∀ c ∈ seq, c.1 < b0.size ∧ c.2 < b0.size ∧ c ∉ A) →
      ∃ results bF, attackSeq b seq = some (results, bF) ∧
        results.length = seq.length ∧
        (∀ k, k < seq.length →
          results.getD k "" =
            (match b0.cellAtN (seq.getD k (0, 0)).1 (seq.getD k (0, 0)).2 with
             | Cell.shipRef i =>
               if ∀ j, j < b0.ships.length →
                   shipCells b0 j ⊆ A ∪ (seq.take (k + 1)).toFinset then "sunk-all"
               else if shipCells b0 i ⊆ A ∪ (seq.take (k + 1)).toFinset then "sunk"
               else "hit"
             | _ => "miss")) := by
  intro seq
  induction seq with
  | nil =>
    intro A b hrel _ _
    refine ⟨[], b, rfl, rfl, ?_⟩
    intro k hk
    simp at hk
  | cons c rest ih =>
    intro A b hrel hnd hseq
    obtain ⟨x, y⟩ := c
    obtain ⟨hx, hy, hA⟩ := hseq (x, y) (List.mem_cons_self _ _)
    rw [List.nodup_cons] at hnd
    obtain ⟨hhead, hndrest⟩ := hnd
    cases hcell : b0.cellAtN x y with
    | hit =>
      exact absurd hcell ((hf.2.1 x hx y hy).1)
    | miss =>
      exact absurd hcell ((hf.2.1 x hx y hy).2.1)
    | shipRef i =>
      obtain ⟨hstep, hrel2⟩ := attack_step_ship b0 hf A b hrel x y i hx hy hA hcell
      have hrest : ∀ d ∈ rest, d.1 < b0.size ∧ d.2 < b0.size ∧ d ∉ insert (x, y) A := by
        intro d hd
        obtain ⟨h1, h2, h3⟩ := hseq d (List.mem_cons_of_mem _ hd)
        refine ⟨h1, h2, ?_⟩
        rw [Finset.mem_insert]
        rintro (hh | hh)
        · subst hh
          exact hhead hd
        · exact h3 hh
      obtain ⟨results2, bF, hseqEq, hlen2, hchar⟩ :=
        ih (insert (x, y) A) (b.shipHitBoard (x : Int) (y : Int) i) hrel2 hndrest hrest
      refine ⟨(if ∀ j, j < b0.ships.length →
            shipCells b0 j ⊆ insert (x, y) A then "sunk-all"
          else if shipCells b0 i ⊆ insert (x, y) A then "sunk" else "hit") :: results2,
          bF, ?_, ?_, ?_⟩
      · rw [attackSeq_cons_ok hstep, hseqEq]
      · simp [hlen2]
      · intro k hk
        cases k with
        | zero =>
          have hset : A ∪ (((x, y) :: rest).take 1).toFinset = insert (x, y) A := by
            rw [List.take_succ_cons, List.take_zero, List.toFinset_cons, List.toFinset_nil,
              Finset.union_insert, Finset.union_empty]
          simp only [List.getD_cons_zero, hcell, hset]
        | succ k =>
          have hset2 : A ∪ (((x, y) :: rest).take (k + 2)).toFinset =
              insert (x, y) A ∪ (rest.take (k + 1)).toFinset := by
            rw [List.take_succ_cons, List.toFinset_cons, Finset.union_insert,
              Finset.insert_union]
          simp only [List.getD_cons_succ]
          rw [hchar k (by simpa using hk), hset2]
    | empty =>
      obtain ⟨hstep, hrel2⟩ := attack_step_empty b0 A b hrel x y hx hy hA hcell
      have hrest : ∀ d ∈ rest, d.1 < b0.size ∧ d.2 < b0.size ∧ d ∉ insert (x, y) A := by
        intro d hd
        obtain ⟨h1, h2, h3⟩ := hseq d (List.mem_cons_of_mem _ hd)
        refine ⟨h1, h2, ?_⟩
        rw [Finset.mem_insert]
        rintro (hh | hh)
        · subst hh
          exact hhead hd
        · exact h3 hh
      obtain ⟨results2, bF, hseqEq, hlen2, hchar⟩ :=
        ih (insert (x, y) A) (b.setCell (x : Int) (y : Int) Cell.miss) hrel2 hndrest hrest
      refine ⟨"miss" :: results2, bF, ?_, ?_, ?_⟩
      · rw [attackSeq_cons_ok hstep, hseqEq]
      · simp [hlen2]
      · intro k hk
        cases k with
        | zero =>
          simp only [List.getD_cons_zero, hcell]
        | succ k =>
          have hset2 : A ∪ (((x, y) :: rest).take (k + 2)).toFinset =
              insert (x, y) A ∪ (rest.take (k + 1)).toFinset := by
            rw [List.take_succ_cons, List.toFinset_cons, Finset.union_insert,
              Finset.insert_union]
          simp only [List.getD_cons_succ]
          rw [hchar k (by simpa using hk), hset2]

theorem mem_take_toFinset (seq : List (Nat × Nat)) (n : Nat) (c : Nat × Nat) :
    c ∈ (seq.take n).toFinset ↔
      ∃ p, p < n ∧ p < seq.length ∧ seq.getD p (0, 0) = c := by
  rw [List.mem_toFinset, List.mem_iff_getElem]
  constructor
  · rintro ⟨p, hp, he⟩
    have hlen : p < seq.length := by
      rw [List.length_take] at hp
      omega
    have hpn : p < n := by
      rw [List.length_take] at hp
      omega
    refine ⟨p, hpn, hlen, ?_⟩
    rw [List.getD_eq_getElem _ _ hlen]
    have hq : (seq.take n)[p]? = seq[p]? := List.getElem?_take_of_lt hpn
    rw [List.getElem?_eq_getElem hp, List.getElem?_eq_getElem hlen] at hq
    injection hq with hq
    rw [← hq]
    exact he
  · rintro ⟨p, hpn, hlen, he⟩
    have hp : p < (seq.take n).length := by
      rw [List.length_take]
      omega
    refine ⟨p, hp, ?_⟩
    have hq : (seq.take n)[p]? = seq[p]? := List.getElem?_take_of_lt hpn
    rw [List.getElem?_eq_getElem hp, List.getElem?_eq_getElem hlen] at hq
    injection hq with hq
    rw [hq]
    rw [List.getD_eq_getElem _ _ hlen] at he
    exact he

theorem nodup_getD_inj (seq : List (Nat × Nat)) (hnd : seq.Nodup) {p q : Nat}
    (hp : p < seq.length) (hq : q < seq.length)
    (h : seq.getD p (0, 0) = seq.getD q (0, 0)) : p = q := by
  rw [List.getD_eq_getElem _ _ hp, List.getD_eq_getElem _ _ hq] at h
  exact (List.Nodup.getElem_inj_iff hnd).mp h

theorem count_eq_one_of_unique :
    ∀ (l : List String) (s : String) (K : Nat), s ≠ "" → K < l.length →
      l.getD K "" = s → (∀ k, k < l.length → l.getD k "" = s → k = K) →
      l.count s = 1 := by
  intro l
  induction l with
  | nil =>
    intro s K _ hK
    simp at hK
  | cons a t ih =>
    intro s K hne hK hKs huni
    cases K with
    | zero =>
      simp only [List.getD_cons_zero] at hKs
      have hnot : s ∉ t := by
        intro hmem
        rw [List.mem_iff_getElem] at hmem
        obtain ⟨p, hp, he⟩ := hmem
        have := huni (p + 1) (by simpa using hp)
          (by rw [List.getD_cons_succ, List.getD_eq_getElem _ _ hp]; exact he)
        cases this
      rw [List.count_cons]
      rw [if_pos (by rw [hKs]; simp)]
      rw [List.count_eq_zero.mpr hnot]
    | succ K =>
      have ha : a ≠ s := by
        intro haeq
        have := huni 0 (by omega) (by rw [List.getD_cons_zero]; exact haeq)
        cases this
      rw [List.count_cons, if_neg (by simp [ha])]
      rw [Nat.add_zero]
      refine ih s K hne (by simpa using hK) (by simpa using hKs) ?_
      intro k hk hks
      have := huni (k + 1) (by simpa using hk) (by simpa using hks)
      omega

theorem covered_iff_no_later (seq : List (Nat × Nat)) (hnd : seq.Nodup)
    (S : Finset (Nat × Nat)) (hcov : S ⊆ seq.toFinset) (k : Nat) (hk : k < seq.length) :
    S ⊆ (seq.take (k + 1)).toFinset ↔
      ∀ m, k < m → m < seq.length → seq.getD m (0, 0) ∉ S := by
  constructor
  · intro hsub m hkm hm hmem
    have := hsub hmem
    rw [mem_take_toFinset] at this
    obtain ⟨p, hp1, hp2, hp3⟩ := this
    have := nodup_getD_inj seq hnd hp2 hm hp3
    omega
  · intro hno c hc
    have hcseq : c ∈ seq := List.mem_toFinset.mp (hcov hc)
    rw [List.mem_iff_getElem] at hcseq
    obtain ⟨p, hp, he⟩ := hcseq
    have hgd : seq.getD p (0, 0) = c := by
      rw [List.getD_eq_getElem _ _ hp]
      exact he
    rw [mem_take_toFinset]
    by_cases hpk : p ≤ k
    · exact ⟨p, by omega, hp, hgd⟩
    · exfalso
      exact hno p (by omega) hp (by rw [hgd]; exact hc)

theorem Rel_init (b0 : Gameboard) (hf : FreshBoard b0) : Rel b0 ∅ b0 := by
  obtain ⟨hwf0, _, hships0⟩ := hf
  refine ⟨hwf0, rfl, rfl, ?_, ?_⟩
  · intro x hx y hy
    rw [if_neg (Finset.not_mem_empty _)]
  · intro i hi
    rw [Finset.empty_inter, Finset.card_empty]
    exact ⟨rfl, (hships0 i hi).1⟩

theorem cellIsShip_iff (c : Cell) : cellIsShip c = true ↔ ∃ i, c = Cell.shipRef i := by
  cases c <;> simp [cellIsShip]

/-- Claim C1: on a fresh board, attacking an in-bounds ship cell hits the
referenced ship, marks the cell Hit and returns, in priority order,
"sunk-all" / "sunk" / "hit"; attacking empty water marks it Miss and returns
"miss".  Consequently, for every duplicate-free attack sequence covering all
ship cells of a board holding at least one ship: the fold succeeds; exactly
one attack answers "sunk-all" — precisely the one on a ship cell after which
no ship cell remains; "miss" answers exactly the empty-water attacks; and
"sunk" answers exactly the attacks completing one ship while another ship
cell is still to come. -/
theorem C1_attack_resolution (b0 : Gameboard) (seq : List (Nat × Nat))
    (hf : FreshBoard b0) (hnd : seq.Nodup)
    (hbounds : ∀ c ∈ seq, c.1 < b0.size ∧ c.2 < b0.size)
    (hnum : 0 < b0.ships.length)
    (hcover : ∀ i, i < b0.ships.length → shipCells b0 i ⊆ seq.toFinset) :
    (∀ x y i, x < b0.size → y < b0.size → b0.cellAtN x y = Cell.shipRef i →
      ∃ res b2, b0.receiveAttack (x : Int) (y : Int) = .ok (res, b2) ∧
        b2.cellAtN x y = Cell.hit ∧
        b2.ships.getD i ⟨0, 0⟩ = (b0.ships.getD i ⟨0, 0⟩).hit ∧
        (∀ x2 y2, ¬(x2 = x ∧ y2 = y) → b2.cellAtN x2 y2 = b0.cellAtN x2 y2) ∧
        (∀ j, j ≠ i → b2.ships.getD j ⟨0, 0⟩ = b0.ships.getD j ⟨0, 0⟩) ∧
        res = (if b2.allSunk then "sunk-all"
               else if (b2.ships.getD i ⟨0, 0⟩).isSunk then "sunk" else "hit")) ∧
    (∀ x y, x < b0.size → y < b0.size → b0.cellAtN x y = Cell.empty →
      ∃ b2, b0.receiveAttack (x : Int) (y : Int) = .ok ("miss", b2) ∧
        b2.cellAtN x y = Cell.miss ∧ b2.ships = b0.ships ∧
        (∀ x2 y2, ¬(x2 = x ∧ y2 = y) → b2.cellAtN x2 y2 = b0.cellAtN x2 y2)) ∧
    (∃ results bF, attackSeq b0 seq = some (results, bF) ∧
      results.length = seq.length ∧
      results.count "sunk-all" = 1 ∧
      (∀ k, k < seq.length → (results.getD k "" = "sunk-all" ↔
        (cellIsShip (b0.cellAtN (seq.getD k (0, 0)).1 (seq.getD k (0, 0)).2) = true ∧
         ∀ m, k < m → m < seq.length →
           cellIsShip (b0.cellAtN (seq.getD m (0, 0)).1 (seq.getD m (0, 0)).2) = false))) ∧
      (∀ k, k < seq.length → (results.getD k "" = "miss" ↔
        b0.cellAtN (seq.getD k (0, 0)).1 (seq.getD k (0, 0)).2 = Cell.empty)) ∧
      (∀ k, k < seq.length → (results.getD k "" = "sunk" ↔
        ((∃ i, i < b0.ships.length ∧ seq.getD k (0, 0) ∈ shipCells b0 i ∧
           (∀ m, k < m → m < seq.length → seq.getD m (0, 0) ∉ shipCells b0 i)) ∧
         (∃ m, k < m ∧ m < seq.length ∧
           cellIsShip (b0.cellAtN (seq.getD m (0, 0)).1 (seq.getD m (0, 0)).2) = true))))) := by
  have hwf0 : GridWF b0 := hf.1
  refine ⟨?_, ?_, ?_⟩
  · -- single ship-cell attack
    intro x y i hx hy hcell
    obtain ⟨hstep, _⟩ :=
      attack_step_ship b0 hf ∅ b0 (Rel_init b0 hf) x y i hx hy (Finset.not_mem_empty _) hcell
    have hilen : i < b0.ships.length := by
      have hv := (hf.2.1 x hx y hy).2.2
      rw [hcell] at hv
      exact shipRefValid_shipRef hv
    have hgeti : (b0.shipHitBoard (x : Int) (y : Int) i).ships.getD i ⟨0, 0⟩ =
        (b0.ships.getD i ⟨0, 0⟩).hit := by
      show (b0.ships.set i _).getD i ⟨0, 0⟩ = _
      rw [listGetD_set, if_pos ⟨rfl, hilen⟩]
    refine ⟨b0.shipHitResult (x : Int) (y : Int) i, b0.shipHitBoard (x : Int) (y : Int) i,
      Gameboard.receiveAttack_ship (b0.withinBoardN hx hy)
        (by rw [Gameboard.cellAt_natCast]; exact hcell), ?_, hgeti, ?_, ?_, ?_⟩
    · show (b0.setCell (x : Int) (y : Int) Cell.hit).cellAtN x y = Cell.hit
      rw [cellAtN_setCell_nat b0 hwf0 x y Cell.hit x y hx hy, if_pos ⟨rfl, rfl⟩]
    · intro x2 y2 hne
      show (b0.setCell (x : Int) (y : Int) Cell.hit).cellAtN x2 y2 = _
      rw [cellAtN_setCell_nat b0 hwf0 x y Cell.hit x2 y2 hx hy, if_neg hne]
    · intro j hj
      show (b0.ships.set i _).getD j ⟨0, 0⟩ = _
      rw [listGetD_set, if_neg (by tauto)]
    · rw [hgeti]
      rfl
  · -- single empty-cell attack
    intro x y hx hy hcell
    refine ⟨b0.setCell (x : Int) (y : Int) Cell.miss,
      Gameboard.receiveAttack_empty (b0.withinBoardN hx hy)
        (by rw [Gameboard.cellAt_natCast]; exact hcell), ?_, rfl, ?_⟩
    · rw [cellAtN_setCell_nat b0 hwf0 x y Cell.miss x y hx hy, if_pos ⟨rfl, rfl⟩]
    · intro x2 y2 hne
      rw [cellAtN_setCell_nat b0 hwf0 x y Cell.miss x2 y2 hx hy, if_neg hne]
  · -- the sequence characterisation
    obtain ⟨results, bF, hEq, hlen, hchar⟩ :=
      attackSeq_spec b0 hf seq ∅ b0 (Rel_init b0 hf) hnd
        (fun c hc => ⟨(hbounds c hc).1, (hbounds c hc).2, Finset.not_mem_empty c⟩)
    simp only [Finset.empty_union] at hchar
    have hbk : ∀ k, k < seq.length →
        (seq.getD k (0, 0)).1 < b0.size ∧ (seq.getD k (0, 0)).2 < b0.size := by
      intro k hk
      refine hbounds _ ?_
      rw [List.getD_eq_getElem _ _ hk]
      exact List.getElem_mem hk
    have hTiff : ∀ k, k < seq.length →
        ((∀ j, j < b0.ships.length → shipCells b0 j ⊆ (seq.take (k + 1)).toFinset) ↔
         (∀ m, k < m → m < seq.length →
           cellIsShip (b0.cellAtN (seq.getD m (0, 0)).1 (seq.getD m (0, 0)).2) = false)) := by
      intro k hk
      constructor
      · intro hT m hkm hm
        cases hcm : cellIsShip (b0.cellAtN (seq.getD m (0, 0)).1 (seq.getD m (0, 0)).2) with
        | false => rfl
        | true =>
          exfalso
          obtain ⟨j, hj⟩ := (cellIsShip_iff _).mp hcm
          have hjlen : j < b0.ships.length := by
            have hv := (hf.2.1 _ (hbk m hm).1 _ (hbk m hm).2).2.2
            rw [hj] at hv
            exact shipRefValid_shipRef hv
          have hmem : seq.getD m (0, 0) ∈ shipCells b0 j :=
            mem_shipCells.mpr ⟨(hbk m hm).1, (hbk m hm).2, hj⟩
          exact (covered_iff_no_later seq hnd _ (hcover j hjlen) k hk).mp
            (hT j hjlen) m hkm hm hmem
      · intro hno j hj
        refine (covered_iff_no_later seq hnd _ (hcover j hj) k hk).mpr ?_
        intro m hkm hm hmem
        rw [mem_shipCells] at hmem
        have : cellIsShip (b0.cellAtN (seq.getD m (0, 0)).1 (seq.getD m (0, 0)).2) = true :=
          (cellIsShip_iff _).mpr ⟨j, hmem.2.2⟩
        rw [hno m hkm hm] at this
        cases this
    have hmain : ∀ k, k < seq.length →
        ((results.getD k "" = "sunk-all" ↔
          (cellIsShip (b0.cellAtN (seq.getD k (0, 0)).1 (seq.getD k (0, 0)).2) = true ∧
           ∀ m, k < m → m < seq.length →
             cellIsShip (b0.cellAtN (seq.getD m (0, 0)).1 (seq.getD m (0, 0)).2) = false)) ∧
         (results.getD k "" = "miss" ↔
          b0.cellAtN (seq.getD k (0, 0)).1 (seq.getD k (0, 0)).2 = Cell.empty) ∧
         (results.getD k "" = "sunk" ↔
          ((∃ i, i < b0.ships.length ∧ seq.getD k (0, 0) ∈ shipCells b0 i ∧
             (∀ m, k < m → m < seq.length → seq.getD m (0, 0) ∉ shipCells b0 i)) ∧
           (∃ m, k < m ∧ m < seq.length ∧
             cellIsShip (b0.cellAtN (seq.getD m (0, 0)).1 (seq.getD m (0, 0)).2) = true)))) := by
      intro k hk
      cases hc : b0.cellAtN (seq.getD k (0, 0)).1 (seq.getD k (0, 0)).2 with
      | hit =>
        exact absurd hc ((hf.2.1 _ (hbk k hk).1 _ (hbk k hk).2).1)
      | miss =>
        exact absurd hc ((hf.2.1 _ (hbk k hk).1 _ (hbk k hk).2).2.1)
      | empty =>
        have hres : results.getD k "" = "miss" := by
          rw [hchar k hk, hc]
        rw [hres]
        refine ⟨⟨fun h => absurd h (by decide), ?_⟩, ⟨fun _ => rfl, fun _ => rfl⟩,
          ⟨fun h => absurd h (by decide), ?_⟩⟩
        · rintro ⟨h1, _⟩
          simp [cellIsShip] at h1
        · rintro ⟨⟨i, _, hmem, _⟩, _⟩
          rw [mem_shipCells, hc] at hmem
          cases hmem.2.2
      | shipRef i =>
        have hilen : i < b0.ships.length := by
          have hv := (hf.2.1 _ (hbk k hk).1 _ (hbk k hk).2).2.2
          rw [hc] at hv
          exact shipRefValid_shipRef hv
        have hmemk : seq.getD k (0, 0) ∈ shipCells b0 i :=
          mem_shipCells.mpr ⟨(hbk k hk).1, (hbk k hk).2, hc⟩
        have hhT := hTiff k hk
        have hhS := covered_iff_no_later seq hnd _ (hcover i hilen) k hk
        have hres0 : results.getD k "" =
            (if ∀ j, j < b0.ships.length →
                shipCells b0 j ⊆ (seq.take (k + 1)).toFinset then "sunk-all"
             else if shipCells b0 i ⊆ (seq.take (k + 1)).toFinset then "sunk"
             else "hit") := by
          rw [hchar k hk, hc]
        by_cases hT : ∀ j, j < b0.ships.length → shipCells b0 j ⊆ (seq.take (k + 1)).toFinset
        · rw [if_pos hT] at hres0
          rw [hres0]
          refine ⟨⟨fun _ => ⟨by simp [cellIsShip], hhT.mp hT⟩, fun _ => rfl⟩,
            ⟨fun h => absurd h (by decide), fun h => Cell.noConfusion h⟩,
            ⟨fun h => absurd h (by decide), ?_⟩⟩
          rintro ⟨_, ⟨m, hm1, hm2, hm3⟩⟩
          rw [hhT.mp hT m hm1 hm2] at hm3
          cases hm3
        · rw [if_neg hT] at hres0
          have hlater : ∃ m, k < m ∧ m < seq.length ∧
              cellIsShip (b0.cellAtN (seq.getD m (0, 0)).1 (seq.getD m (0, 0)).2) = true := by
            by_contra hnol
            push_neg at hnol
            refine hT (hhT.mpr ?_)
            intro m hkm hm
            cases hcm : cellIsShip (b0.cellAtN (seq.getD m (0, 0)).1
                (seq.getD m (0, 0)).2) with
            | false => rfl
            | true => exact absurd hcm (hnol m hkm hm)
          by_cases hS : shipCells b0 i ⊆ (seq.take (k + 1)).toFinset
          · rw [if_pos hS] at hres0
            rw [hres0]
            refine ⟨⟨fun h => absurd h (by decide), ?_⟩,
              ⟨fun h => absurd h (by decide), fun h => Cell.noConfusion h⟩,
              ⟨fun _ => ⟨⟨i, hilen, hmemk, hhS.mp hS⟩, hlater⟩, fun _ => rfl⟩⟩
            rintro ⟨_, hno⟩
            exact absurd (hhT.mpr hno) hT
          · rw [if_neg hS] at hres0
            rw [hres0]
            refine ⟨⟨fun h => absurd h (by decide), ?_⟩,
              ⟨fun h => absurd h (by decide), fun h => Cell.noConfusion h⟩,
              ⟨fun h => absurd h (by decide), ?_⟩⟩
            · rintro ⟨_, hno⟩
              exact absurd (hhT.mpr hno) hT
            · rintro ⟨⟨i2, _, hmem2, hS2⟩, _⟩
              rw [mem_shipCells] at hmem2
              have hii : i2 = i := by
                rw [hc] at hmem2
                injection hmem2.2.2 with hinj
                omega
              subst hii
              exact absurd (hhS.mpr hS2) hS
    have hcount : results.count "sunk-all" = 1 := by
      have hex : ∃ m, m < seq.length ∧
          cellIsShip (b0.cellAtN (seq.getD m (0, 0)).1 (seq.getD m (0, 0)).2) = true := by
        have hpos : 0 < (shipCells b0 0).card := by
          rw [(hf.2.2 0 hnum).2.2]
          exact (hf.2.2 0 hnum).2.1
        obtain ⟨c0, hc0⟩ := Finset.card_pos.mp hpos
        have hc0seq : c0 ∈ seq := List.mem_toFinset.mp (hcover 0 hnum hc0)
        rw [List.mem_iff_getElem] at hc0seq
        obtain ⟨p, hp, he⟩ := hc0seq
        refine ⟨p, hp, ?_⟩
        rw [List.getD_eq_getElem _ _ hp, he]
        rw [mem_shipCells] at hc0
        exact (cellIsShip_iff _).mpr ⟨0, hc0.2.2⟩
      obtain ⟨m0, hm0, hPm0⟩ := hex
      set P : Nat → Prop := fun m => m < seq.length ∧
        cellIsShip (b0.cellAtN (seq.getD m (0, 0)).1 (seq.getD m (0, 0)).2) = true with hPdef
      have hPK : P (Nat.findGreatest P seq.length) :=
        Nat.findGreatest_spec (m := m0) (by omega) ⟨hm0, hPm0⟩
      set K := Nat.findGreatest P seq.length with hKdef
      have hKs : results.getD K "" = "sunk-all" := by
        refine ((hmain K hPK.1).1).mpr ⟨hPK.2, ?_⟩
        intro m hKm hm
        cases hcm : cellIsShip (b0.cellAtN (seq.getD m (0, 0)).1 (seq.getD m (0, 0)).2) with
        | false => rfl
        | true =>
          exfalso
          exact Nat.findGreatest_is_greatest hKm (by omega) ⟨hm, hcm⟩
      refine count_eq_one_of_unique results "sunk-all" K (by decide)
        (by omega) hKs ?_
      intro k hk hks
      have hk2 : k < seq.length := by omega
      obtain ⟨hP1, hno⟩ := ((hmain k hk2).1).mp hks
      by_cases hkK : k < K
      · exfalso
        have := hno K hkK hPK.1
        rw [hPK.2] at this
        cases this
      · by_cases hKk : K < k
        · exfalso
          exact Nat.findGreatest_is_greatest hKk (by omega) ⟨hk2, hP1⟩
        · omega
    exact ⟨results, bF, hEq, hlen, hcount,
      fun k hk => ((hmain k hk).1),
      fun k hk => ((hmain k hk).2.1),
      fun k hk => ((hmain k hk).2.2)⟩

/-- Witness for C1: a 5 by 5 board with two vertical length-2 ships in
columns 0 and 1, attacked over all four ship cells plus one water cell. -/
theorem C1_attack_resolution_witness :
    letI b0 : Gameboard :=
      { size := 5
        board := [[Cell.shipRef 0, Cell.shipRef 1, Cell.empty, Cell.empty, Cell.empty],
                  [Cell.shipRef 0, Cell.shipRef 1, Cell.empty, Cell.empty, Cell.empty],
                  [Cell.empty, Cell.empty, Cell.empty, Cell.empty, Cell.empty],
                  [Cell.empty, Cell.empty, Cell.empty, Cell.empty, Cell.empty],
                  [Cell.empty, Cell.empty, Cell.empty, Cell.empty, Cell.empty]]
        ships := [⟨2, 0⟩, ⟨2, 0⟩] }
    letI seq : List (Nat × Nat) := [(0, 0), (0, 1), (2, 2), (1, 0), (1, 1)]
    (∀ x y i, x < b0.size → y < b0.size → b0.cellAtN x y = Cell.shipRef i →
      ∃ res b2, b0.receiveAttack (x : Int) (y : Int) = .ok (res, b2) ∧
        b2.cellAtN x y = Cell.hit ∧
        b2.ships.getD i ⟨0, 0⟩ = (b0.ships.getD i ⟨0, 0⟩).hit ∧
        (∀ x2 y2, ¬(x2 = x ∧ y2 = y) → b2.cellAtN x2 y2 = b0.cellAtN x2 y2) ∧
        (∀ j, j ≠ i → b2.ships.getD j ⟨0, 0⟩ = b0.ships.getD j ⟨0, 0⟩) ∧
        res = (if b2.allSunk then "sunk-all"
               else if (b2.ships.getD i ⟨0, 0⟩).isSunk then "sunk" else "hit")) ∧
    (∀ x y, x < b0.size → y < b0.size → b0.cellAtN x y = Cell.empty →
      ∃ b2, b0.receiveAttack (x : Int) (y : Int) = .ok ("miss", b2) ∧
        b2.cellAtN x y = Cell.miss ∧ b2.ships = b0.ships ∧
        (∀ x2 y2, ¬(x2 = x ∧ y2 = y) → b2.cellAtN x2 y2 = b0.cellAtN x2 y2)) ∧
    (∃ results bF, attackSeq b0 seq = some (results, bF) ∧
      results.length = seq.length ∧
      results.count "sunk-all" = 1 ∧
      (∀ k, k < seq.length → (results.getD k "" = "sunk-all" ↔
        (cellIsShip (b0.cellAtN (seq.getD k (0, 0)).1 (seq.getD k (0, 0)).2) = true ∧
         ∀ m, k < m → m < seq.length →
           cellIsShip (b0.cellAtN (seq.getD m (0, 0)).1 (seq.getD m (0, 0)).2) = false))) ∧
      (∀ k, k < seq.length → (results.getD k "" = "miss" ↔
        b0.cellAtN (seq.getD k (0, 0)).1 (seq.getD k (0, 0)).2 = Cell.empty)) ∧
      (∀ k, k < seq.length → (results.getD k "" = "sunk" ↔
        ((∃ i, i < b0.ships.length ∧ seq.getD k (0, 0) ∈ shipCells b0 i ∧
           (∀ m, k < m → m < seq.length → seq.getD m (0, 0) ∉ shipCells b0 i)) ∧
         (∃ m, k < m ∧ m < seq.length ∧
           cellIsShip (b0.cellAtN (seq.getD m (0, 0)).1 (seq.getD m (0, 0)).2) = true))))) :=
  C1_attack_resolution _ _ (by decide) (by decide) (by decide) (by decide) (by decide)

end Battleship
